import Mathlib

/-!
Verification of the column-count reconciliation and line-repair engine of the
cres-validation repository (`cres_validation/columns_number_validator.py` and
`cres_validation/rejected_lines.py`), via a shallow embedding over `List Char`
lines.  A file is modelled as the list of physical lines exactly as Python's
line iteration yields them (line terminators included).
-/

namespace CresVal

/-- A physical line of text, as a list of characters. -/
abbrev Line := List Char

/-- Convert a string literal to a `Line`. -/
def toL (s : String) : Line := s.toList

/-- The ASCII whitespace characters recognised by Python's `str.strip()`
(restricted to the ASCII range, which is all the engine's checks rely on). -/
def pySpace (c : Char) : Bool :=
  c = ' ' || c = '\t' || c = '\n' || c = '\r' || c = '\x0b' || c = '\x0c'

/-- `not line.strip()`: the line is empty or whitespace-only. -/
def isBlank (l : Line) : Bool := l.all pySpace

/-- Python's `line.rstrip("\n\r")`: drop trailing newline and carriage-return
characters. -/
def rstripNl (l : Line) : Line :=
  (l.reverse.dropWhile (fun c => c = '\n' || c = '\r')).reverse

/-- ASCII lowercasing of one character, as Python's `str.lower()` acts on
ASCII input. -/
def lowerCh (c : Char) : Char := c.toLower

/-- `s.lower()` on a line. -/
def lowerA (l : Line) : Line := l.map lowerCh

/-- `pat` is a leading segment of `l` (character-wise equality). -/
def leadsWith : Line → Line → Bool
  | [], _ => true
  | _ :: _, [] => false
  | a :: as, b :: bs => a = b && leadsWith as bs

/-- Python's `pat in l`: `pat` occurs contiguously somewhere in `l`. -/
def containsSub (pat : Line) : Line → Bool
  | [] => pat.isEmpty
  | c :: rest => leadsWith pat (c :: rest) || containsSub pat rest

/-- `l.startswith(c)` for a one-character pattern. -/
def startsWithCh (l : Line) (c : Char) : Bool :=
  match l with
  | [] => false
  | a :: _ => a = c

/-- `line.count(d)` for a one-character delimiter: number of occurrences. -/
def countCh (l : Line) (d : Char) : Nat := l.countP (fun c => c = d)

/-- Python's `s.split(d)` for a one-character separator. -/
def splitOnCh (d : Char) : Line → List Line
  | [] => [[]]
  | c :: rest =>
    let r := splitOnCh d rest
    if c = d then [] :: r
    else
      match r with
      | [] => [[c]]
      | f :: fs => (c :: f) :: fs

/-- Python's `d.join(parts)` for a one-character separator. -/
def joinCh (d : Char) (parts : List Line) : Line :=
  match parts with
  | [] => []
  | [p] => p
  | p :: rest => p ++ d :: joinCh d rest

/-! ## The CSV record splitter

A faithful model of CPython's `csv.reader` state machine for the default
dialect (`quotechar='"'`, `doublequote=True`, `escapechar=None`,
`strict=False`, `quoting=QUOTE_MINIMAL`) applied to a single input line, i.e.
`next(csv.reader([line], delimiter=d))`.  The result is `none` exactly when
the reader raises (a non-newline character encountered while eating a
CR/LF sequence inside the line), and otherwise the list of fields of the
first record. -/

/-- Parser states of the `csv.reader` state machine (the reachable subset for
single-record input). -/
inductive CsvSt
  | startField
  | inField
  | inQuoted
  | quoteInQuoted
  | eatCrnl
deriving DecidableEq

/-- One-line `csv.reader` state machine.  `f` is the current field (reversed),
`acc` the fields finished so far (reversed). -/
def csvAux (d : Char) : CsvSt → List Char → List Char → List Line → Option (List Line)
  | .startField, [], f, acc => some ((f.reverse :: acc).reverse)
  | .inField, [], f, acc => some ((f.reverse :: acc).reverse)
  | .inQuoted, [], f, acc => some ((f.reverse :: acc).reverse)
  | .quoteInQuoted, [], f, acc => some ((f.reverse :: acc).reverse)
  | .eatCrnl, [], _f, acc => some acc.reverse
  | .startField, c :: rest, f, acc =>
    if c = '\n' || c = '\r' then csvAux d .eatCrnl rest [] (f.reverse :: acc)
    else if c = '"' then csvAux d .inQuoted rest f acc
    else if c = d then csvAux d .startField rest [] (f.reverse :: acc)
    else csvAux d .inField rest (c :: f) acc
  | .inField, c :: rest, f, acc =>
    if c = '\n' || c = '\r' then csvAux d .eatCrnl rest [] (f.reverse :: acc)
    else if c = d then csvAux d .startField rest [] (f.reverse :: acc)
    else csvAux d .inField rest (c :: f) acc
  | .inQuoted, c :: rest, f, acc =>
    if c = '"' then csvAux d .quoteInQuoted rest f acc
    else csvAux d .inQuoted rest (c :: f) acc
  | .quoteInQuoted, c :: rest, f, acc =>
    if c = '"' then csvAux d .inQuoted rest ('"' :: f) acc
    else if c = d then csvAux d .startField rest [] (f.reverse :: acc)
    else if c = '\n' || c = '\r' then csvAux d .eatCrnl rest [] (f.reverse :: acc)
    else csvAux d .inField rest (c :: f) acc
  | .eatCrnl, c :: rest, f, acc =>
    if c = '\n' || c = '\r' then csvAux d .eatCrnl rest f acc
    else none

/-- `next(csv.reader([line], delimiter=d))`: the fields of the single record,
or `none` when the reader raises an error. -/
def csvRecordFields (d : Char) (l : Line) : Option (List Line) :=
  match l with
  | [] => some []
  | c :: rest =>
    if c = '\n' || c = '\r' then csvAux d .eatCrnl rest [] []
    else csvAux d .startField (c :: rest) [] []

/-- `count_columns_in_line_fast(line, delimiter)` from
`columns_number_validator.py`: the quick field count — delimiter occurrences
plus one when no quote character is present, and the `csv.reader` field count
(with the occurrences-plus-one fallback on parse failure) otherwise. -/
def count_columns_in_line_fast (l : Line) (d : Char) : Nat :=
  if l.any (fun c => c = '"' || c = '\'') then
    match csvRecordFields d l with
    | some row => row.length
    | none => countCh l d + 1
  else countCh l d + 1

example : count_columns_in_line_fast (toL "a;\"b;c\";d") ';' = 3 := by decide
example : count_columns_in_line_fast (toL "a;b;c") ';' = 3 := by decide
example : count_columns_in_line_fast (toL "d;e") ';' = 2 := by decide
example : count_columns_in_line_fast (toL "a;'b;c';d") ';' = 4 := by decide

/-! ## Header detection

`columns_number_validator.py` classifies a (terminator-stripped) line as a
header when it starts with the configured delimiter (or with a literal `;`)
and its lowercased text contains `matricul` or `cin`. -/

/-- The header predicate of the validator, applied to a stripped line. -/
def isHeaderLine (d : Char) (s : Line) : Bool :=
  (startsWithCh s d || startsWithCh s ';') &&
    (containsSub (toL "matricul") (lowerA s) || containsSub (toL "cin") (lowerA s))

example : isHeaderLine ';' (toL ";Matricul;CIN;sexe") = true := by decide
example : isHeaderLine ';' (toL "a;b;c") = false := by decide
example : isHeaderLine ';' (toL ";a;b;c") = false := by decide

/-! ## The field-count distribution (`collections.Counter`)

A `Counter` over field counts is an association list in insertion order: a
new key is appended at the end, an existing key is bumped in place — exactly
Python's dict insertion-order semantics. -/

/-- `counter[k] += 1`. -/
def ctrIncr (ctr : List (Nat × Nat)) (k : Nat) : List (Nat × Nat) :=
  if (ctr.map Prod.fst).contains k then
    ctr.map (fun p => if p.1 = k then (p.1, p.2 + 1) else p)
  else ctr ++ [(k, 1)]

/-- Build the counter of a list of field counts, in order of occurrence. -/
def buildCtr (cs : List Nat) : List (Nat × Nat) := cs.foldl ctrIncr []

/-- `counter.most_common(1)[0]`: the first entry of maximal multiplicity, in
insertion order (Python's `heapq.nlargest(1, ...)` = first maximum). -/
def mostCommon1 (ctr : List (Nat × Nat)) : Option (Nat × Nat) :=
  match ctr with
  | [] => none
  | p :: rest => some (rest.foldl (fun best q => if best.2 < q.2 then q else best) p)

/-- `max(counter.keys())`. -/
def maxKeys (ctr : List (Nat × Nat)) : Nat :=
  match ctr with
  | [] => 0
  | p :: rest => rest.foldl (fun m q => max m q.1) p.1

/-! ## Pass 1: the frequency analyzer (`read_file_with_encoding`) -/

/-- The loop of `read_file_with_encoding`: skip blank lines, treat the first
non-blank line as a header when it matches the predicate (recording its field
count separately), and count every other non-blank line's field count. -/
def pass1Aux (d : Char) (firstFlag : Bool) (hdr : Option Nat)
    (ctr : List (Nat × Nat)) : List Line → Option Nat × List (Nat × Nat)
  | [] => (hdr, ctr)
  | l :: rest =>
    let s := rstripNl l
    if isBlank s then pass1Aux d firstFlag hdr ctr rest
    else if firstFlag then
      if isHeaderLine d s then
        pass1Aux d false (some (count_columns_in_line_fast s d)) ctr rest
      else pass1Aux d false hdr (ctrIncr ctr (count_columns_in_line_fast s d)) rest
    else pass1Aux d false hdr (ctrIncr ctr (count_columns_in_line_fast s d)) rest

/-- Pass 1 over a whole file. -/
def pass1 (d : Char) (lines : List Line) : Option Nat × List (Nat × Nat) :=
  pass1Aux d true none [] lines

/-! ## Spec-level view of the data lines -/

/-- The stripped non-blank lines of the file. -/
def nonBlankLines (lines : List Line) : List Line :=
  (lines.map rstripNl).filter (fun s => !isBlank s)

/-- The data lines: the non-blank lines minus the detected header (the first
non-blank line when it matches the header predicate). -/
def dataLines (d : Char) (lines : List Line) : List Line :=
  match nonBlankLines lines with
  | [] => []
  | h :: rest => if isHeaderLine d h then rest else h :: rest

/-- The field counts of the data lines, in file order. -/
def dataCounts (d : Char) (lines : List Line) : List Nat :=
  (dataLines d lines).map (fun s => count_columns_in_line_fast s d)

/-! ## Pass 2: the anomaly locator (`find_problematic_lines`) -/

/-- The loop of `find_problematic_lines`, with 1-based physical line
numbering: the first non-blank line, when it matches the header predicate, is
recorded iff its count differs from both `e` and `e + 1`; every other
non-blank line is recorded iff its count differs from `e`. -/
def findProbAux (d : Char) (e : Nat) (firstFlag : Bool) (idx : Nat) :
    List Line → List (Nat × Nat)
  | [] => []
  | l :: rest =>
    let s := rstripNl l
    if isBlank s then findProbAux d e firstFlag (idx + 1) rest
    else if firstFlag = true ∧ isHeaderLine d s = true then
      let hc := count_columns_in_line_fast s d
      (if hc ≠ e ∧ hc ≠ e + 1 then [(idx, hc)] else []) ++
        findProbAux d e false (idx + 1) rest
    else
      let c := count_columns_in_line_fast s d
      (if c ≠ e then [(idx, c)] else []) ++ findProbAux d e false (idx + 1) rest

/-- `find_problematic_lines` over a whole file: the mapping from physical
line number to actual field count, in insertion (= file) order. -/
def find_problematic_lines (d : Char) (e : Nat) (lines : List Line) :
    List (Nat × Nat) :=
  findProbAux d e true 1 lines

/-- Insertion of a number into a sorted list (ascending). -/
def insNat (n : Nat) : List Nat → List Nat
  | [] => [n]
  | m :: rest => if n ≤ m then n :: m :: rest else m :: insNat n rest

/-- `sorted(keys)`: sort a list of naturals ascending. -/
def sortNat (l : List Nat) : List Nat := l.foldr insNat []

/-! ## `analyze_csv_columns` -/

/-- The result tuple of `analyze_csv_columns`. -/
structure AnalyzeOut where
  expectedColumns : Nat
  problematicList : List Nat
  counter : List (Nat × Nat)
  problematic : List (Nat × Nat)
deriving DecidableEq

/-- `analyze_csv_columns(csv_path, delimiter, use_most_frequent)`: run pass 1;
raise (`none`) when the distribution is empty; resolve the expected width by
mode or maximum; run pass 2 and return its sorted key list alongside. -/
def analyze_csv_columns (d : Char) (useMostFrequent : Bool) (lines : List Line) :
    Option AnalyzeOut :=
  let p := pass1 d lines
  if p.2 = [] then none
  else
    let e := if useMostFrequent then
        (match mostCommon1 p.2 with
         | some q => q.1
         | none => 0)
      else maxKeys p.2
    let prob := find_problematic_lines d e lines
    some ⟨e, sortNat (prob.map Prod.fst), p.2, prob⟩

example :
    analyze_csv_columns ';' true [toL "a;b;c\n", toL "d;e\n", toL "f;g;h\n"] =
      some ⟨3, [2], [(3, 2), (2, 1)], [(2, 2)]⟩ := by decide

example : analyze_csv_columns ';' true [toL "\n", toL " \n"] = none := by decide
example : analyze_csv_columns ';' true [toL ";matricul;cin\n"] = none := by decide

/-! ## The repair engine (`read_and_correct` inside `correct_csv`) -/

/-- `adjust_header(header_line, first_data_line, delimiter, expected_cols)`:
parse both lines with the csv splitter (falling back to a simple split when
either parse fails); when the header has exactly one more field than the data
line, drop its last field and terminate with a newline; otherwise return the
header unchanged. -/
def adjust_header (d : Char) (headerLine firstDataLine : Line) : Line :=
  let h := rstripNl headerLine
  let dd := rstripNl firstDataLine
  let parts :=
    match csvRecordFields d h, csvRecordFields d dd with
    | some a, some b => (a, b)
    | _, _ => (splitOnCh d h, splitOnCh d dd)
  if parts.1.length = parts.2.length + 1 then joinCh d parts.1.dropLast ++ ['\n']
  else headerLine

/-- The mutable state of the `read_and_correct` loop.  The output file
content is `outHeader` (written first, when present) followed by `outRecs`. -/
structure RCState where
  written : Nat
  corrected : Nat
  buffer : Line
  olc : Nat
  firstFlag : Bool
  headerLine : Option Line
  firstData : Option Line
  outHeader : Option Line
  outRecs : List Line
deriving DecidableEq

/-- The initial state of the loop. -/
def rcInit : RCState :=
  ⟨0, 0, [], 0, true, none, none, none, []⟩

/-- The deferred-header phase of the loop body: when a header is held back
and no data line has been seen yet, a non-blank line triggers the adjusted
header write and is remembered as the first data line. -/
def rcPend (d : Char) (s : RCState) (line : Line) : RCState :=
  match s.headerLine, s.firstData with
  | some h, none =>
    if ¬ isBlank (rstripNl line) then
      { s with firstData := some line,
               outHeader := some (adjust_header d h line),
               written := s.written + 1 }
    else s
  | _, _ => s

/-- The buffer phase of the loop body: skip blank lines; flush the buffer
when its field count reaches or exceeds `e` (counting a merge when it
combined several original lines) and restart it with the current line; merge
the current line into an under-width buffer, joined by a single space. -/
def rcBody (d : Char) (e : Nat) (s : RCState) (line : Line) : RCState :=
  if isBlank (rstripNl line) then s
  else if s.buffer ≠ [] then
    if ¬ isBlank (rstripNl s.buffer) then
      if count_columns_in_line_fast (rstripNl s.buffer) d = e ∨
          e < count_columns_in_line_fast (rstripNl s.buffer) d then
        { s with outRecs := s.outRecs ++ [s.buffer],
                 written := s.written + 1,
                 corrected := s.corrected + (if 1 < s.olc then 1 else 0),
                 buffer := line, olc := 1 }
      else
        { s with buffer := rstripNl s.buffer ++ ' ' :: line,
                 olc := s.olc + 1 }
    else { s with buffer := line, olc := 1 }
  else { s with buffer := line, olc := 1 }

/-- The body of `read_and_correct` for one physical input line, translated
clause by clause: header detection on the literal first line (held back,
nothing written); otherwise the deferred-header phase followed by the buffer
phase. -/
def rcStep (d : Char) (e : Nat) (s : RCState) (line : Line) : RCState :=
  if s.firstFlag ∧ isHeaderLine d (rstripNl line) then
    { s with headerLine := some line, firstFlag := false }
  else rcBody d e (rcPend d { s with firstFlag := false } line) line

/-- The end-of-input flush: write the remaining buffer when it is non-blank,
counting it as a merged record when it combined more than one original
line. -/
def rcFinal (s : RCState) : RCState :=
  if ¬ isBlank s.buffer then
    { s with outRecs := s.outRecs ++ [s.buffer],
             written := s.written + 1,
             corrected := s.corrected + (if 1 < s.olc then 1 else 0) }
  else s

/-- `read_and_correct(enc)`: fold the step over the file, then flush. -/
def read_and_correct (d : Char) (e : Nat) (lines : List Line) : RCState :=
  rcFinal (lines.foldl (rcStep d e) rcInit)

/-- The content of the output file written by `read_and_correct`: the
adjusted header (written first, when present) followed by the flushed
records. -/
def rcFileContent (s : RCState) : List Line :=
  (match s.outHeader with
   | some h => [h]
   | none => []) ++ s.outRecs

/-- The number of non-blank physical lines of a file. -/
def countNonBlank (lines : List Line) : Nat :=
  (lines.filter (fun l => !isBlank l)).length

/-- `correct_csv(csv_path, output_path, delimiter)`: analyze with the
most-frequent policy, adopt the wider of the mode and maximum widths, then
run the repair pass.  Returns the output file content together with the
`lines_written` and `lines_corrected` counters, or `none` when the analysis
raises. -/
def correct_csv (d : Char) (lines : List Line) :
    Option (List Line × Nat × Nat) :=
  match analyze_csv_columns d true lines with
  | none => none
  | some a =>
    let e := max a.expectedColumns (maxKeys a.counter)
    let s := read_and_correct d e lines
    some (rcFileContent s, s.written, s.corrected)

example :
    correct_csv ';' [toL "a;b;c\n", toL "d;e\n", toL "f;g;h\n"] =
      some ([toL "a;b;c\n", toL "d;e f;g;h\n"], 2, 1) := by decide

/-! ## Encoding fallback in `correct_csv`

A decoded stream is a list of `Option Line`: `some l` is a successfully
decoded physical line, `none` marks the point where the text decoder raises a
`UnicodeDecodeError`.  Running a pass on a stream processes lines until the
error point; the output file is opened with mode `"w"`, so each run starts
from an empty (truncated) file. -/

/-- Run the repair loop on a decoded stream from state `s`.  On a decode
error the exception propagates before the end-of-input flush: the result is
the partial file content and `none` for the counters. -/
def runPassAux (d : Char) (e : Nat) (s : RCState) :
    List (Option Line) → List Line × Option (Nat × Nat)
  | [] =>
    let t := rcFinal s
    (rcFileContent t, some (t.written, t.corrected))
  | none :: _ => (rcFileContent s, none)
  | some l :: rest => runPassAux d e (rcStep d e s l) rest

/-- One `read_and_correct(enc)` call on a decoded stream, starting from the
freshly truncated output file. -/
def runPass (d : Char) (e : Nat) (stream : List (Option Line)) :
    List Line × Option (Nat × Nat) :=
  runPassAux d e rcInit stream

/-- The `try/except UnicodeDecodeError` around `read_and_correct` in
`correct_csv`: run the pass under the requested encoding; when it raises a
decode error, rerun the whole pass under latin-1 (re-truncating the output
file). -/
def correctCsvEnc (d : Char) (e : Nat)
    (streamReq streamLatin1 : List (Option Line)) :
    List Line × Option (Nat × Nat) :=
  match runPass d e streamReq with
  | (content, some counts) => (content, some counts)
  | (_, none) => runPass d e streamLatin1

/-! ## `save_rejected_lines_to_csv` (`rejected_lines.py`) -/

/-- `save_rejected_lines_to_csv(csv_path, rejected_lines, output_path)`:
a no-op (`none`: the output file is not created) when the rejected list is
empty; otherwise the header is the first physical line of the source file
(`f.readline()`), kept only when non-blank, followed by each rejected line
stripped of its terminator, skipping blank ones.  The source file is given as
its list of physical lines. -/
def save_rejected_lines_to_csv (srcLines : List Line)
    (rejected : List (Nat × Line)) : Option (List Line) :=
  if rejected = [] then none
  else
    let firstLine := srcLines.headD []
    let header : Option Line :=
      if ¬ isBlank firstLine then some (rstripNl firstLine) else none
    some
      ((match header with
        | some h => [h ++ ['\n']]
        | none => []) ++
       rejected.filterMap (fun p =>
         let cleaned := rstripNl p.2
         if ¬ isBlank cleaned then some (cleaned ++ ['\n']) else none))

/-- The first non-blank line of a file, stripped (spec-side notion used by
the rejection-recorder claim). -/
def firstNonBlank (lines : List Line) : Option Line :=
  ((lines.map rstripNl).filter (fun s => !isBlank s)).head?

/-! ## Spec-side formulation of the anomaly locator -/

/-- Pair every element with its index, starting at `i`. -/
def withIdx (i : Nat) : List α → List (Nat × α)
  | [] => []
  | a :: rest => (i, a) :: withIdx (i + 1) rest

/-- The 1-based physical number of the first non-blank line at or after
position `i`. -/
def firstNonBlankIdxFrom (i : Nat) (lines : List Line) : Option Nat :=
  ((withIdx i lines).find? (fun p => !isBlank (rstripNl p.2))).map Prod.fst

/-- The recording rule of the anomaly locator, stated from the spec: a blank
line is never recorded; the first non-blank line, when it matches the header
predicate, is recorded iff its field count differs from both `e` and `e + 1`;
every other non-blank line is recorded iff its field count differs from `e`.
Stated over `withIdx i` with the first-non-blank position computed from
`i`. -/
def problemSpecFrom (d : Char) (e : Nat) (i : Nat) (lines : List Line) :
    List (Nat × Nat) :=
  (withIdx i lines).filterMap (fun p =>
    let s := rstripNl p.2
    if isBlank s then none
    else
      let c := count_columns_in_line_fast s d
      if firstNonBlankIdxFrom i lines = some p.1 ∧ isHeaderLine d s then
        if c ≠ e ∧ c ≠ e + 1 then some (p.1, c) else none
      else if c = e then none else some (p.1, c))

/-- The spec-side anomaly registry of a file, with 1-based numbering. -/
def problemSpec (d : Char) (e : Nat) (lines : List Line) : List (Nat × Nat) :=
  problemSpecFrom d e 1 lines

/-- The recording rule with no header exemption (used for every line after
the first non-blank one). -/
def problemPlain (d : Char) (e : Nat) (i : Nat) (lines : List Line) :
    List (Nat × Nat) :=
  (withIdx i lines).filterMap (fun p =>
    let s := rstripNl p.2
    if isBlank s then none
    else if count_columns_in_line_fast s d = e then none
    else some (p.1, count_columns_in_line_fast s d))

/-- The field counts of all non-blank lines (header not yet removed). -/
def plainCounts (d : Char) (lines : List Line) : List Nat :=
  (nonBlankLines lines).map (fun s => count_columns_in_line_fast s d)

example :
    problemSpec ';' 3 [toL "a;b;c\n", toL "d;e\n", toL "f;g;h\n"] = [(2, 2)] := by
  decide

/-! ## Accounting helpers for the repair-loop invariants -/

/-- One when the repair buffer is non-empty. -/
def bufFlag (s : RCState) : Nat := if s.buffer = [] then 0 else 1

/-- One when a detected header is being held back, not yet written. -/
def pendFlag (s : RCState) : Nat :=
  if s.headerLine ≠ none ∧ s.firstData = none then 1 else 0

/-- Records written so far plus the pending buffer and pending header. -/
def measureRC (s : RCState) : Nat := s.written + bufFlag s + pendFlag s

/-- Invariant of the repair loop on anomaly-free input: no merge counted yet,
and the buffer holds at most one original line whose width is already at
least `e`; a state still waiting for its first line is clean. -/
def GoodC3 (d : Char) (e : Nat) (s : RCState) : Prop :=
  s.corrected = 0 ∧
  (s.buffer = [] ∨
    (isBlank s.buffer = false ∧ s.olc = 1 ∧
      e ≤ count_columns_in_line_fast (rstripNl s.buffer) d)) ∧
  (s.firstFlag = true → s.headerLine = none ∧ s.firstData = none ∧ s.buffer = [])

example :
    find_problematic_lines ';' 3
        [toL "\n", toL ";matricul;x;y\n", toL "a;b;c\n", toL "d;e\n"] =
      [(4, 2)] := by decide

example :
    problemSpec ';' 3
        [toL "\n", toL ";matricul;x;y\n", toL "a;b;c\n", toL "d;e\n"] =
      [(4, 2)] := by decide

/-! # Foundational lemmas -/

lemma isBlank_append (a b : Line) :
    isBlank (a ++ b) = (isBlank a && isBlank b) := by
  simp [isBlank, List.all_append]

lemma rstripNl_eq_self_append (l : Line) :
    ∃ t, l = rstripNl l ++ t ∧ ∀ c ∈ t, c = '\n' ∨ c = '\r' := by
  refine ⟨(l.reverse.takeWhile (fun c => c = '\n' || c = '\r')).reverse, ?_, ?_⟩
  · rw [rstripNl, ← List.reverse_append, List.takeWhile_append_dropWhile,
      List.reverse_reverse]
  · intro c hc
    rw [List.mem_reverse] at hc
    have := List.mem_takeWhile_imp hc
    simpa using this

lemma isBlank_rstripNl (l : Line) : isBlank (rstripNl l) = isBlank l := by
  obtain ⟨t, hl, ht⟩ := rstripNl_eq_self_append l
  conv_rhs => rw [hl]
  rw [isBlank_append]
  have hbt : isBlank t = true := by
    rw [isBlank, List.all_eq_true]
    intro c hc
    rcases ht c hc with h | h <;> simp [h, pySpace]
  rw [hbt, Bool.and_true]

lemma ne_nil_of_not_blank {l : Line} (h : isBlank l = false) : l ≠ [] := by
  intro he
  subst he
  simp [isBlank] at h

lemma containsSub_headCh {c : Char} {pat l : Line}
    (h : containsSub (c :: pat) l = true) : c ∈ l := by
  induction l with
  | nil => simp [containsSub, List.isEmpty] at h
  | cons b rest ih =>
    rw [containsSub, Bool.or_eq_true] at h
    rcases h with h | h
    · rw [leadsWith, Bool.and_eq_true] at h
      have hb : c = b := by simpa using h.1
      simp [hb]
    · exact List.mem_cons_of_mem _ (ih h)

lemma lowerCh_of_pySpace {c : Char} (h : pySpace c = true) : lowerCh c = c := by
  rw [pySpace] at h
  simp only [Bool.or_eq_true, decide_eq_true_eq] at h
  rcases h with ((((h | h) | h) | h) | h) | h <;> subst h <;> decide

lemma containsSub_false_of_blank {c : Char} {pat s : Line}
    (hb : isBlank s = true) (hc : pySpace c = false) :
    containsSub (c :: pat) (lowerA s) = false := by
  cases hx : containsSub (c :: pat) (lowerA s)
  · rfl
  · exfalso
    have hm := containsSub_headCh hx
    rw [lowerA, List.mem_map] at hm
    obtain ⟨x, hxs, hlx⟩ := hm
    rw [isBlank, List.all_eq_true] at hb
    have hps : pySpace x = true := by simpa using hb x hxs
    rw [lowerCh_of_pySpace hps] at hlx
    subst hlx
    rw [hc] at hps
    simp at hps

lemma isHeaderLine_nonblank {d : Char} {s : Line}
    (h : isHeaderLine d s = true) : isBlank s = false := by
  cases hb : isBlank s
  · rfl
  · exfalso
    rw [isHeaderLine,
        show toL "matricul" = 'm' :: toL "atricul" from rfl,
        show toL "cin" = 'c' :: toL "in" from rfl,
        containsSub_false_of_blank hb (by decide),
        containsSub_false_of_blank hb (by decide)] at h
    simp at h

lemma countNonBlank_cons (l : Line) (ls : List Line) :
    countNonBlank (l :: ls) =
      (if isBlank l then 0 else 1) + countNonBlank ls := by
  rw [countNonBlank, countNonBlank, List.filter_cons]
  cases h : isBlank l
  · simp [h, Nat.add_comm]
  · simp [h]

/-! # C1: Scenario A end to end -/

/-- C1: on the three-line input `a;b;c`, `d;e`, `f;g;h` with delimiter `;`,
`correct_csv` adopts expected width 3 and writes exactly two records —
`a;b;c` and the merged `d;e f;g;h` — with `lines_written = 2` and
`lines_corrected = 1`. -/
theorem claim1_scenarioA_repair :
    correct_csv ';' [toL "a;b;c\n", toL "d;e\n", toL "f;g;h\n"] =
      some ([toL "a;b;c\n", toL "d;e f;g;h\n"], 2, 1) := by
  decide

/-! # C4: the field counter -/

/-- C4: `count_columns_in_line_fast` returns delimiter occurrences plus one
when the line has no quote character; when a quote character is present it
returns the field count of the quote-aware `csv.reader` split, falling back
to occurrences-plus-one exactly when that parse fails; on `a;"b;c";d` with
delimiter `;` it returns 3, not 4. -/
theorem claim4_field_counter (l : Line) (d : Char) :
    (l.any (fun c => c = '"' || c = '\'') = false →
      count_columns_in_line_fast l d = countCh l d + 1) ∧
    (∀ row, l.any (fun c => c = '"' || c = '\'') = true →
      csvRecordFields d l = some row →
      count_columns_in_line_fast l d = row.length) ∧
    (l.any (fun c => c = '"' || c = '\'') = true →
      csvRecordFields d l = none →
      count_columns_in_line_fast l d = countCh l d + 1) ∧
    count_columns_in_line_fast (toL "a;\"b;c\";d") ';' = 3 ∧
    countCh (toL "a;\"b;c\";d") ';' + 1 = 4 := by
  refine ⟨?_, ?_, ?_, by decide, by decide⟩
  · intro h
    rw [count_columns_in_line_fast, h]
    simp
  · intro row h hrow
    rw [count_columns_in_line_fast, h, hrow]
    simp
  · intro h hrow
    rw [count_columns_in_line_fast, h, hrow]
    simp

/-- Witness for C4 at concrete inputs: the no-quote path and the quote-aware
path, instantiated. -/
theorem claim4_witness :
    count_columns_in_line_fast (toL "d;e") ';' = countCh (toL "d;e") ';' + 1 ∧
    count_columns_in_line_fast (toL "a;\"b;c\";d") ';' =
      [toL "a", toL "b;c", toL "d"].length := by
  have h := claim4_field_counter (toL "d;e") ';'
  have h2 := claim4_field_counter (toL "a;\"b;c\";d") ';'
  exact ⟨h.1 (by decide),
    h2.2.1 [toL "a", toL "b;c", toL "d"] (by decide) (by decide)⟩

/-! # Lemmas on the phases of the repair loop -/

lemma rcPend_cases (d : Char) (s : RCState) (l : Line) :
    rcPend d s l = s ∨
      ∃ h, s.headerLine = some h ∧ s.firstData = none ∧
        isBlank (rstripNl l) = false ∧
        rcPend d s l = { s with firstData := some l,
                                outHeader := some (adjust_header d h l),
                                written := s.written + 1 } := by
  unfold rcPend
  cases hh : s.headerLine with
  | none => exact Or.inl rfl
  | some h =>
    cases hf : s.firstData with
    | some f => exact Or.inl rfl
    | none =>
      cases hb : isBlank (rstripNl l) with
      | false =>
        right
        exact ⟨h, rfl, rfl, rfl, by simp⟩
      | true => exact Or.inl (by simp)

lemma rcPend_keeps (d : Char) (s : RCState) (l : Line) :
    (rcPend d s l).buffer = s.buffer ∧ (rcPend d s l).olc = s.olc ∧
    (rcPend d s l).corrected = s.corrected ∧
    (rcPend d s l).outRecs = s.outRecs ∧
    (rcPend d s l).firstFlag = s.firstFlag ∧
    (rcPend d s l).headerLine = s.headerLine := by
  rcases rcPend_cases d s l with h | ⟨hd, _, _, _, h⟩ <;> rw [h] <;>
    exact ⟨rfl, rfl, rfl, rfl, rfl, rfl⟩

lemma rcPend_measure (d : Char) (s : RCState) (l : Line) :
    (rcPend d s l).written + pendFlag (rcPend d s l) =
      s.written + pendFlag s := by
  rcases rcPend_cases d s l with h | ⟨hd, hh, hf, hb, h⟩
  · rw [h]
  · rw [h]
    simp [pendFlag, hh, hf]

lemma rcBody_keeps (d : Char) (e : Nat) (s : RCState) (l : Line) :
    (rcBody d e s l).headerLine = s.headerLine ∧
    (rcBody d e s l).firstData = s.firstData ∧
    (rcBody d e s l).outHeader = s.outHeader ∧
    (rcBody d e s l).firstFlag = s.firstFlag := by
  rw [rcBody]
  split_ifs <;> exact ⟨rfl, rfl, rfl, rfl⟩

lemma blank_false_of_not {b : Bool} (h : ¬ b = true) : b = false := by
  cases b
  · rfl
  · exact absurd rfl h

lemma rcBody_measure (d : Char) (e : Nat) (s : RCState) (l : Line) :
    (rcBody d e s l).written + bufFlag (rcBody d e s l) ≤
      s.written + bufFlag s + (if isBlank (rstripNl l) then 0 else 1) := by
  rw [rcBody]
  by_cases h1 : isBlank (rstripNl l) = true
  · simp only [if_pos h1]
    omega
  · simp only [if_neg h1]
    have hbl : isBlank (rstripNl l) = false := blank_false_of_not h1
    have hl : (l : Line) ≠ [] := by
      apply ne_nil_of_not_blank
      rw [← isBlank_rstripNl]
      exact hbl
    by_cases h2 : s.buffer = []
    · rw [if_neg (not_not_intro h2)]
      simp only [bufFlag]
      rw [if_neg hl, if_pos h2]
    · rw [if_pos h2]
      by_cases h3 : isBlank (rstripNl s.buffer) = true
      · rw [if_neg (not_not_intro h3)]
        simp only [bufFlag]
        rw [if_neg hl, if_neg h2]
        omega
      · rw [if_pos h3]
        by_cases h4 : count_columns_in_line_fast (rstripNl s.buffer) d = e ∨
            e < count_columns_in_line_fast (rstripNl s.buffer) d
        · rw [if_pos h4]
          simp only [bufFlag]
          rw [if_neg hl, if_neg h2]
        · rw [if_neg h4]
          simp only [bufFlag]
          rw [if_neg h2,
              if_neg (show ¬ rstripNl s.buffer ++ ' ' :: l = [] by simp)]
          omega

lemma pendFlag_congr {s t : RCState} (hh : t.headerLine = s.headerLine)
    (hf : t.firstData = s.firstData) : pendFlag t = pendFlag s := by
  rw [pendFlag, pendFlag, hh, hf]

lemma bufFlag_congr {s t : RCState} (hb : t.buffer = s.buffer) :
    bufFlag t = bufFlag s := by
  rw [bufFlag, bufFlag, hb]

lemma rcStep_measure (d : Char) (e : Nat) (s : RCState) (l : Line) :
    measureRC (rcStep d e s l) ≤
      measureRC s + (if isBlank l then 0 else 1) := by
  rw [rcStep]
  by_cases h1 : s.firstFlag = true ∧ isHeaderLine d (rstripNl l) = true
  · rw [if_pos h1]
    have hnb : isBlank l = false := by
      rw [← isBlank_rstripNl]
      exact isHeaderLine_nonblank h1.2
    rw [if_neg (by simp [hnb] : ¬ isBlank l = true)]
    simp only [measureRC, bufFlag, pendFlag]
    dsimp only
    split_ifs <;> omega
  · rw [if_neg h1]
    obtain ⟨kb, ko, kc, kr, kff, khl⟩ :=
      rcPend_keeps d { s with firstFlag := false } l
    obtain ⟨bh, bf, bo, bff⟩ :=
      rcBody_keeps d e (rcPend d { s with firstFlag := false } l) l
    have hpm := rcPend_measure d { s with firstFlag := false } l
    have hbm := rcBody_measure d e (rcPend d { s with firstFlag := false } l) l
    have hpend : pendFlag (rcBody d e (rcPend d { s with firstFlag := false } l) l) =
        pendFlag (rcPend d { s with firstFlag := false } l) :=
      pendFlag_congr bh bf
    have hbufX : bufFlag (rcPend d { s with firstFlag := false } l) =
        bufFlag { s with firstFlag := false } := bufFlag_congr kb
    have hpends1 : pendFlag { s with firstFlag := false } = pendFlag s :=
      pendFlag_congr rfl rfl
    have hbufs1 : bufFlag { s with firstFlag := false } = bufFlag s :=
      bufFlag_congr rfl
    have hw1 : ({ s with firstFlag := false } : RCState).written = s.written := rfl
    rw [isBlank_rstripNl] at hbm
    rw [measureRC, measureRC, hpend]
    omega

lemma rcFold_measure (d : Char) (e : Nat) :
    ∀ (ls : List Line) (s : RCState),
      measureRC (ls.foldl (rcStep d e) s) ≤ measureRC s + countNonBlank ls := by
  intro ls
  induction ls with
  | nil => intro s; simp [countNonBlank]
  | cons l rest ih =>
    intro s
    rw [List.foldl_cons, countNonBlank_cons]
    have h1 := ih (rcStep d e s l)
    have h2 := rcStep_measure d e s l
    cases hb : isBlank l
    · rw [hb] at h2
      rw [if_neg (by simp : ¬ ((false : Bool) = true))] at h2 ⊢
      omega
    · rw [hb] at h2
      rw [if_pos rfl] at h2 ⊢
      omega

lemma rcFinal_written (s : RCState) :
    (rcFinal s).written ≤ s.written + bufFlag s := by
  rw [rcFinal]
  by_cases h : ¬ isBlank s.buffer = true
  · rw [if_pos h]
    have hne : s.buffer ≠ [] :=
      ne_nil_of_not_blank (blank_false_of_not h)
    simp only [bufFlag]
    rw [if_neg hne]
  · rw [if_neg h]
    omega

/-! # C2: the repair never writes more records than non-blank input lines -/

lemma read_and_correct_written_le (d : Char) (e : Nat) (ls : List Line) :
    (read_and_correct d e ls).written ≤ countNonBlank ls := by
  rw [read_and_correct]
  have h1 := rcFinal_written (ls.foldl (rcStep d e) rcInit)
  have h2 := rcFold_measure d e ls rcInit
  have h3 : measureRC rcInit = 0 := by rfl
  rw [measureRC] at h2
  omega

/-- C2: for every input file, the number of records written by the repair
pass of `correct_csv` — the emitted header, the mid-stream flushes and the
final flush together — is at most the number of non-blank physical lines of
the input. -/
theorem claim2_repair_record_count_le (d : Char) (lines : List Line)
    (out : List Line) (w c : Nat)
    (h : correct_csv d lines = some (out, w, c)) :
    w ≤ countNonBlank lines := by
  rw [correct_csv] at h
  cases ha : analyze_csv_columns d true lines with
  | none => rw [ha] at h; exact absurd h (by simp)
  | some a =>
    rw [ha] at h
    simp only [Option.some.injEq, Prod.mk.injEq] at h
    have hw : w = (read_and_correct d
        (max a.expectedColumns (maxKeys a.counter)) lines).written := h.2.1.symm
    rw [hw]
    exact read_and_correct_written_le d _ lines

/-- Witness for C2: the Scenario A input, where 2 records are written from 3
non-blank lines. -/
theorem claim2_witness :
    (2 : Nat) ≤ countNonBlank [toL "a;b;c\n", toL "d;e\n", toL "f;g;h\n"] :=
  claim2_repair_record_count_le ';' [toL "a;b;c\n", toL "d;e\n", toL "f;g;h\n"]
    [toL "a;b;c\n", toL "d;e f;g;h\n"] 2 1 (by decide)

/-! # C10: mid-stream flushes never emit an under-width record -/

lemma rcBody_outRecs (d : Char) (e : Nat) (s : RCState) (l : Line) :
    (rcBody d e s l).outRecs = s.outRecs ∨
      ((rcBody d e s l).outRecs = s.outRecs ++ [s.buffer] ∧
        e ≤ count_columns_in_line_fast (rstripNl s.buffer) d) := by
  rw [rcBody]
  by_cases h1 : isBlank (rstripNl l) = true
  · rw [if_pos h1]; exact Or.inl rfl
  · rw [if_neg h1]
    by_cases h2 : s.buffer = []
    · rw [if_neg (not_not_intro h2)]; exact Or.inl rfl
    · rw [if_pos h2]
      by_cases h3 : isBlank (rstripNl s.buffer) = true
      · rw [if_neg (not_not_intro h3)]; exact Or.inl rfl
      · rw [if_pos h3]
        by_cases h4 : count_columns_in_line_fast (rstripNl s.buffer) d = e ∨
            e < count_columns_in_line_fast (rstripNl s.buffer) d
        · rw [if_pos h4]
          right
          refine ⟨rfl, ?_⟩
          rcases h4 with h | h <;> omega
        · rw [if_neg h4]; exact Or.inl rfl

lemma rcStep_outRecs (d : Char) (e : Nat) (s : RCState) (l : Line) :
    (rcStep d e s l).outRecs = s.outRecs ∨
      ((rcStep d e s l).outRecs = s.outRecs ++ [s.buffer] ∧
        e ≤ count_columns_in_line_fast (rstripNl s.buffer) d) := by
  rw [rcStep]
  by_cases h1 : s.firstFlag = true ∧ isHeaderLine d (rstripNl l) = true
  · rw [if_pos h1]; exact Or.inl rfl
  · rw [if_neg h1]
    obtain ⟨kb, ko, kc, kr, kff, khl⟩ :=
      rcPend_keeps d { s with firstFlag := false } l
    rcases rcBody_outRecs d e (rcPend d { s with firstFlag := false } l) l with
      h | ⟨h, hc⟩
    · rw [h, kr]; exact Or.inl rfl
    · rw [h, kr, kb]
      rw [kb] at hc
      exact Or.inr ⟨rfl, hc⟩

lemma rcFold_outRecs_bound (d : Char) (e : Nat) :
    ∀ (ls : List Line) (s : RCState),
      (∀ r ∈ s.outRecs, e ≤ count_columns_in_line_fast (rstripNl r) d) →
      ∀ r ∈ (ls.foldl (rcStep d e) s).outRecs,
        e ≤ count_columns_in_line_fast (rstripNl r) d := by
  intro ls
  induction ls with
  | nil => intro s hs; simpa using hs
  | cons l rest ih =>
    intro s hs
    rw [List.foldl_cons]
    apply ih
    intro r hr
    rcases rcStep_outRecs d e s l with h | ⟨h, hc⟩
    · rw [h] at hr; exact hs r hr
    · rw [h] at hr
      rcases List.mem_append.mp hr with h' | h'
      · exact hs r h'
      · have hrb : r = s.buffer := by simpa using h'
        rw [hrb]
        exact hc

/-- C10: every record flushed by the repair loop before end of input — the
`outRecs` of the folded loop state, which excludes the separately written
header — has a field count at least the expected width `e`; the final
end-of-input flush is the only further record the pass appends. -/
theorem claim10_midstream_flush_width (d : Char) (e : Nat) (lines : List Line) :
    (∀ r ∈ (lines.foldl (rcStep d e) rcInit).outRecs,
        e ≤ count_columns_in_line_fast (rstripNl r) d) ∧
    ((read_and_correct d e lines).outRecs =
        (lines.foldl (rcStep d e) rcInit).outRecs ∨
      (read_and_correct d e lines).outRecs =
        (lines.foldl (rcStep d e) rcInit).outRecs ++
          [(lines.foldl (rcStep d e) rcInit).buffer]) := by
  constructor
  · apply rcFold_outRecs_bound d e lines rcInit
    intro r hr
    simp [rcInit] at hr
  · rw [read_and_correct, rcFinal]
    by_cases h : ¬ isBlank (lines.foldl (rcStep d e) rcInit).buffer = true
    · rw [if_pos h]; right; rfl
    · rw [if_neg h]; left; rfl

/-- Witness for C10: in Scenario A, the single mid-stream flush `a;b;c` has
field count 3 ≥ the adopted width 3. -/
theorem claim10_witness :
    (3 : Nat) ≤ count_columns_in_line_fast (rstripNl (toL "a;b;c\n")) ';' :=
  (claim10_midstream_flush_width ';' 3
      [toL "a;b;c\n", toL "d;e\n", toL "f;g;h\n"]).1 (toL "a;b;c\n") (by decide)

/-! # C8: encoding fallback restarts the pass with a truncated output file -/

lemma runPassAux_allSome (d : Char) (e : Nat) :
    ∀ (ls : List Line) (s : RCState),
      runPassAux d e s (ls.map some) =
        (rcFileContent (rcFinal (ls.foldl (rcStep d e) s)),
         some ((rcFinal (ls.foldl (rcStep d e) s)).written,
               (rcFinal (ls.foldl (rcStep d e) s)).corrected)) := by
  intro ls
  induction ls with
  | nil => intro s; rfl
  | cons l rest ih =>
    intro s
    rw [List.map_cons, List.foldl_cons, runPassAux]
    exact ih (rcStep d e s l)

/-- C8: when the repair pass raises a decode error under the requested
encoding, `correct_csv` reruns the whole pass under latin-1 over a freshly
truncated output file: the final result is exactly the fallback pass's
output — the failed attempt's partial output does not survive. -/
theorem claim8_encoding_fallback (d : Char) (e : Nat)
    (streamReq : List (Option Line)) (ls : List Line)
    (hfail : (runPass d e streamReq).2 = none) :
    correctCsvEnc d e streamReq (ls.map some) = runPass d e (ls.map some) ∧
    runPass d e (ls.map some) =
      (rcFileContent (read_and_correct d e ls),
       some ((read_and_correct d e ls).written,
             (read_and_correct d e ls).corrected)) := by
  constructor
  · rw [correctCsvEnc]
    rcases hp : runPass d e streamReq with ⟨content, counts⟩
    rw [hp] at hfail
    simp at hfail
    subst hfail
    rfl
  · exact runPassAux_allSome d e ls rcInit

/-- Witness for C8: a stream failing after one line is transparently replaced
by the fallback stream's full output. -/
theorem claim8_witness :
    correctCsvEnc ';' 2 [some (toL "a;b\n"), none]
        ([toL "a;b\n", toL "c;d\n"].map some) =
      runPass ';' 2 ([toL "a;b\n", toL "c;d\n"].map some) :=
  (claim8_encoding_fallback ';' 2 [some (toL "a;b\n"), none]
      [toL "a;b\n", toL "c;d\n"] (by decide)).1

/-! # C9: the rejection recorder -/

/-- C9 counterexample: when the first physical line of the source file is
blank, `save_rejected_lines_to_csv` writes no header at all, even though the
file has a later non-empty first line — the claim's "first non-empty line of
the original file" is not what is written. -/
theorem claim9_counterexample :
    save_rejected_lines_to_csv [toL "\n", toL "HDR;X\n"] [(2, toL "x;y\n")] =
      some [toL "x;y\n"] ∧
    firstNonBlank [toL "\n", toL "HDR;X\n"] = some (toL "HDR;X") ∧
    ¬ (toL "HDR;X" ++ ['\n']) ∈ [toL "x;y\n"] := by
  decide

/-- C9 (amended): given a non-empty rejected list, the output is the first
*physical* line of the original file as header — only when that very line is
non-blank — followed by every rejected line in the given order, stripped of
terminators, blank ones skipped; given an empty rejected list nothing is
written and no file is created. -/
theorem claim9_amended (srcLines : List Line) (rejected : List (Nat × Line)) :
    (rejected = [] → save_rejected_lines_to_csv srcLines rejected = none) ∧
    (rejected ≠ [] →
      save_rejected_lines_to_csv srcLines rejected =
        some ((if ¬ isBlank (srcLines.headD []) then
                [rstripNl (srcLines.headD []) ++ ['\n']]
              else []) ++
          rejected.filterMap (fun p =>
            if ¬ isBlank (rstripNl p.2) then some (rstripNl p.2 ++ ['\n'])
            else none))) := by
  constructor
  · intro h
    rw [save_rejected_lines_to_csv, if_pos h]
  · intro h
    rw [save_rejected_lines_to_csv, if_neg h]
    dsimp only
    by_cases hb : ¬ isBlank (srcLines.headD []) = true
    · rw [if_pos hb, if_pos hb]
    · rw [if_neg hb, if_neg hb]

/-- Witness for C9 (amended): a no-op on the empty list, and header plus
cleaned rejected lines on a non-empty one. -/
theorem claim9_witness :
    save_rejected_lines_to_csv [toL "h;x\n"] [] = none ∧
    save_rejected_lines_to_csv [toL "h;x\n"] [(2, toL "a;b\n")] =
      some [toL "h;x\n", toL "a;b\n"] := by
  refine ⟨(claim9_amended [toL "h;x\n"] []).1 rfl, ?_⟩
  rw [(claim9_amended [toL "h;x\n"] [(2, toL "a;b\n")]).2 (by decide)]
  decide

/-! # C5: the anomaly locator matches its specification -/

lemma withIdx_bound {α : Type} :
    ∀ (ls : List α) (i : Nat) (p : Nat × α), p ∈ withIdx i ls → i ≤ p.1 := by
  intro ls
  induction ls with
  | nil => intro i p hp; simp [withIdx] at hp
  | cons a rest ih =>
    intro i p hp
    rw [withIdx] at hp
    rcases List.mem_cons.mp hp with h | h
    · subst h; exact Nat.le_refl i
    · have := ih (i + 1) p h
      omega

lemma firstNBF_cons_blank {i : Nat} {l : Line} {rest : List Line}
    (h : isBlank (rstripNl l) = true) :
    firstNonBlankIdxFrom i (l :: rest) = firstNonBlankIdxFrom (i + 1) rest := by
  rw [firstNonBlankIdxFrom, firstNonBlankIdxFrom, withIdx,
      List.find?_cons_of_neg]
  simp [h]

lemma firstNBF_cons_nonblank {i : Nat} {l : Line} {rest : List Line}
    (h : isBlank (rstripNl l) = false) :
    firstNonBlankIdxFrom i (l :: rest) = some i := by
  rw [firstNonBlankIdxFrom, withIdx, List.find?_cons_of_pos]
  · rfl
  · simp [h]

lemma findProbAux_false_eq_plain (d : Char) (e : Nat) :
    ∀ (ls : List Line) (i : Nat),
      findProbAux d e false i ls = problemPlain d e i ls := by
  intro ls
  induction ls with
  | nil => intro i; rfl
  | cons l rest ih =>
    intro i
    rw [findProbAux, problemPlain, withIdx, List.filterMap_cons]
    dsimp only
    by_cases hb : isBlank (rstripNl l) = true
    · rw [if_pos hb, if_pos hb, ih]
      rfl
    · rw [if_neg hb, if_neg hb,
          if_neg (by rintro ⟨h1, -⟩; exact absurd h1 (by simp) :
            ¬ (false = true ∧ isHeaderLine d (rstripNl l) = true))]
      by_cases hc : count_columns_in_line_fast (rstripNl l) d = e
      · rw [if_pos hc, if_neg (not_not_intro hc), ih]
        rfl
      · rw [if_neg hc, if_pos hc, ih]
        rfl

lemma specFilter_drop_header (d : Char) (e : Nat) (o : Option Nat) :
    ∀ (ls : List Line) (j : Nat),
      (∀ p : Nat × Line, p ∈ withIdx j ls → o ≠ some p.1) →
      (withIdx j ls).filterMap (fun p =>
        if isBlank (rstripNl p.2) then none
        else
          if o = some p.1 ∧ isHeaderLine d (rstripNl p.2) = true then
            if count_columns_in_line_fast (rstripNl p.2) d ≠ e ∧
                count_columns_in_line_fast (rstripNl p.2) d ≠ e + 1 then
              some (p.1, count_columns_in_line_fast (rstripNl p.2) d)
            else none
          else if count_columns_in_line_fast (rstripNl p.2) d = e then none
          else some (p.1, count_columns_in_line_fast (rstripNl p.2) d)) =
        problemPlain d e j ls := by
  intro ls j ho
  rw [problemPlain]
  apply List.filterMap_congr
  intro p hp
  dsimp only
  by_cases hb : isBlank (rstripNl p.2) = true
  · rw [if_pos hb, if_pos hb]
  · rw [if_neg hb, if_neg hb,
        if_neg (by rintro ⟨h1, -⟩; exact ho p hp h1)]

lemma problemSpecFrom_cons_blank (d : Char) (e : Nat) (i : Nat)
    (l : Line) (rest : List Line) (hb : isBlank (rstripNl l) = true) :
    problemSpecFrom d e i (l :: rest) = problemSpecFrom d e (i + 1) rest := by
  rw [problemSpecFrom, problemSpecFrom, withIdx, List.filterMap_cons]
  dsimp only
  rw [firstNBF_cons_blank hb, if_pos hb]

lemma findProbAux_true_eq_spec (d : Char) (e : Nat) :
    ∀ (ls : List Line) (i : Nat),
      findProbAux d e true i ls = problemSpecFrom d e i ls := by
  intro ls
  induction ls with
  | nil => intro i; rfl
  | cons l rest ih =>
    intro i
    by_cases hb : isBlank (rstripNl l) = true
    · rw [problemSpecFrom_cons_blank d e i l rest hb, ← ih (i + 1)]
      rw [findProbAux]
      dsimp only
      rw [if_pos hb]
    · have hbf : isBlank (rstripNl l) = false := blank_false_of_not hb
      have hbound : ∀ p : Nat × Line, p ∈ withIdx (i + 1) rest →
          (some i : Option Nat) ≠ some p.1 := by
        intro p hp h1
        have hle := withIdx_bound rest (i + 1) p hp
        have hip : i = p.1 := Option.some.inj h1
        omega
      rw [findProbAux]
      dsimp only
      rw [if_neg hb, problemSpecFrom, withIdx, List.filterMap_cons]
      dsimp only
      rw [firstNBF_cons_nonblank hbf, if_neg hb,
          findProbAux_false_eq_plain,
          specFilter_drop_header d e (some i) rest (i + 1) hbound]
      by_cases hh : isHeaderLine d (rstripNl l) = true
      · rw [if_pos (⟨rfl, hh⟩ :
              (true : Bool) = true ∧ isHeaderLine d (rstripNl l) = true),
            if_pos (⟨rfl, hh⟩ :
              (some i : Option Nat) = some i ∧
                isHeaderLine d (rstripNl l) = true)]
        by_cases hcc : count_columns_in_line_fast (rstripNl l) d ≠ e ∧
            count_columns_in_line_fast (rstripNl l) d ≠ e + 1
        · rw [if_pos hcc, if_pos hcc]
          rfl
        · rw [if_neg hcc, if_neg hcc]
          rfl
      · rw [if_neg (fun hand => hh hand.2 :
              ¬ ((true : Bool) = true ∧ isHeaderLine d (rstripNl l) = true)),
            if_neg (fun hand => hh hand.2 :
              ¬ ((some i : Option Nat) = some i ∧
                isHeaderLine d (rstripNl l) = true))]
        by_cases hc : count_columns_in_line_fast (rstripNl l) d = e
        · rw [if_neg (not_not_intro hc), if_pos hc]
          rfl
        · rw [if_pos hc, if_neg hc]
          rfl

lemma findProbAux_bound (d : Char) (e : Nat) :
    ∀ (ls : List Line) (fl : Bool) (i : Nat) (p : Nat × Nat),
      p ∈ findProbAux d e fl i ls → i ≤ p.1 := by
  intro ls
  induction ls with
  | nil =>
    intro fl i p hp
    rw [findProbAux] at hp
    exact absurd hp (List.not_mem_nil p)
  | cons l rest ih =>
    intro fl i p hp
    rw [findProbAux] at hp
    dsimp only at hp
    by_cases hb : isBlank (rstripNl l) = true
    · rw [if_pos hb] at hp
      have := ih fl (i + 1) p hp
      omega
    · rw [if_neg hb] at hp
      by_cases hh : fl = true ∧ isHeaderLine d (rstripNl l) = true
      · rw [if_pos hh] at hp
        rcases List.mem_append.mp hp with h | h
        · by_cases hcc : count_columns_in_line_fast (rstripNl l) d ≠ e ∧
              count_columns_in_line_fast (rstripNl l) d ≠ e + 1
          · rw [if_pos hcc] at h
            rw [List.mem_singleton.mp h]
          · rw [if_neg hcc] at h
            exact absurd h (List.not_mem_nil p)
        · have := ih false (i + 1) p h
          omega
      · rw [if_neg hh] at hp
        rcases List.mem_append.mp hp with h | h
        · by_cases hc : count_columns_in_line_fast (rstripNl l) d ≠ e
          · rw [if_pos hc] at h
            rw [List.mem_singleton.mp h]
          · rw [if_neg hc] at h
            exact absurd h (List.not_mem_nil p)
        · have := ih false (i + 1) p h
          omega

lemma pairwise_head_append {C : Prop} [Decidable C] {x : Nat × Nat}
    {t : List (Nat × Nat)} (hx : ∀ q ∈ t, x.1 < q.1)
    (ht : t.Pairwise (fun p q : Nat × Nat => p.1 < q.1)) :
    ((if C then [x] else []) ++ t).Pairwise (fun p q : Nat × Nat => p.1 < q.1) := by
  split_ifs
  · refine List.pairwise_append.mpr ⟨List.pairwise_singleton _ _, ht, ?_⟩
    intro a ha b hb
    rw [List.mem_singleton.mp ha]
    exact hx b hb
  · simpa using ht

lemma findProbAux_sorted (d : Char) (e : Nat) :
    ∀ (ls : List Line) (fl : Bool) (i : Nat),
      (findProbAux d e fl i ls).Pairwise (fun p q => p.1 < q.1) := by
  intro ls
  induction ls with
  | nil =>
    intro fl i
    rw [findProbAux]
    exact List.Pairwise.nil
  | cons l rest ih =>
    intro fl i
    rw [findProbAux]
    dsimp only
    by_cases hb : isBlank (rstripNl l) = true
    · rw [if_pos hb]
      exact ih fl (i + 1)
    · rw [if_neg hb]
      have hq : ∀ q ∈ findProbAux d e false (i + 1) rest, i < q.1 := by
        intro q hqm
        have := findProbAux_bound d e rest false (i + 1) q hqm
        omega
      by_cases hh : fl = true ∧ isHeaderLine d (rstripNl l) = true
      · rw [if_pos hh]
        exact pairwise_head_append hq (ih false (i + 1))
      · rw [if_neg hh]
        exact pairwise_head_append hq (ih false (i + 1))

lemma insNat_sorted_head {a : Nat} :
    ∀ {l : List Nat}, (∀ b ∈ l, a ≤ b) → insNat a l = a :: l := by
  intro l
  cases l with
  | nil => intro _; rfl
  | cons b rest =>
    intro h
    rw [insNat, if_pos (h b (List.mem_cons_self b rest))]

lemma sortNat_of_sorted : ∀ {l : List Nat}, l.Pairwise (· ≤ ·) → sortNat l = l := by
  intro l
  induction l with
  | nil => intro _; rfl
  | cons a rest ih =>
    intro h
    have hp := List.pairwise_cons.mp h
    rw [sortNat, List.foldr_cons,
        show List.foldr insNat [] rest = sortNat rest from rfl, ih hp.2]
    exact insNat_sorted_head hp.1

/-- C5: `find_problematic_lines` returns exactly the spec-side anomaly
registry — the first non-blank line, when it matches the header predicate, is
recorded iff its field count differs from both `e` and `e + 1`, every other
non-blank line iff its count differs from `e` — and its key list is already
in strictly ascending line-number order, so the sorted key list returned by
`analyze_csv_columns` is exactly those line numbers in ascending order. -/
theorem claim5_anomaly_locator (d : Char) (e : Nat) (lines : List Line) :
    find_problematic_lines d e lines = problemSpec d e lines ∧
    ((find_problematic_lines d e lines).map Prod.fst).Pairwise (· < ·) ∧
    sortNat ((find_problematic_lines d e lines).map Prod.fst) =
      (find_problematic_lines d e lines).map Prod.fst := by
  have h1 : find_problematic_lines d e lines = problemSpec d e lines :=
    findProbAux_true_eq_spec d e lines 1
  have h2 : ((find_problematic_lines d e lines).map Prod.fst).Pairwise
      (· < ·) := by
    apply List.Pairwise.map
    · intro a b hab
      exact hab
    · exact findProbAux_sorted d e lines true 1
  exact ⟨h1, h2, sortNat_of_sorted (h2.imp Nat.le_of_lt)⟩

/-! # Bridge: pass 1 builds the counter of the data-line field counts -/

lemma nonBlankLines_cons_blank {l : Line} (rest : List Line)
    (hb : isBlank l = true) :
    nonBlankLines (l :: rest) = nonBlankLines rest := by
  rw [nonBlankLines, nonBlankLines, List.map_cons, List.filter_cons]
  simp [isBlank_rstripNl, hb]

lemma nonBlankLines_cons_nonblank {l : Line} (rest : List Line)
    (hb : isBlank l = false) :
    nonBlankLines (l :: rest) = rstripNl l :: nonBlankLines rest := by
  rw [nonBlankLines, nonBlankLines, List.map_cons, List.filter_cons]
  simp [isBlank_rstripNl, hb]

lemma plainCounts_cons_blank {l : Line} (d : Char) (rest : List Line)
    (hb : isBlank l = true) :
    plainCounts d (l :: rest) = plainCounts d rest := by
  rw [plainCounts, plainCounts, nonBlankLines_cons_blank rest hb]

lemma plainCounts_cons_nonblank {l : Line} (d : Char) (rest : List Line)
    (hb : isBlank l = false) :
    plainCounts d (l :: rest) =
      count_columns_in_line_fast (rstripNl l) d :: plainCounts d rest := by
  rw [plainCounts, plainCounts, nonBlankLines_cons_nonblank rest hb,
      List.map_cons]

lemma pass1Aux_false_ctr (d : Char) :
    ∀ (ls : List Line) (hdr : Option Nat) (ctr : List (Nat × Nat)),
      (pass1Aux d false hdr ctr ls).2 =
        List.foldl ctrIncr ctr (plainCounts d ls) := by
  intro ls
  induction ls with
  | nil =>
    intro hdr ctr
    rw [pass1Aux, plainCounts, nonBlankLines]
    rfl
  | cons l rest ih =>
    intro hdr ctr
    rw [pass1Aux]
    by_cases hb : isBlank (rstripNl l) = true
    · have hb' : isBlank l = true := by rw [← isBlank_rstripNl]; exact hb
      rw [if_pos hb, ih, plainCounts_cons_blank d rest hb']
    · have hb' : isBlank l = false := by
        rw [← isBlank_rstripNl]
        exact blank_false_of_not hb
      rw [if_neg hb, if_neg (by simp : ¬ ((false : Bool) = true)), ih,
          plainCounts_cons_nonblank d rest hb', List.foldl_cons]

lemma dataCounts_cons_blank {l : Line} (d : Char) (rest : List Line)
    (hb : isBlank l = true) :
    dataCounts d (l :: rest) = dataCounts d rest := by
  rw [dataCounts, dataCounts, dataLines, dataLines,
      nonBlankLines_cons_blank rest hb]

lemma dataCounts_cons_header {l : Line} (d : Char) (rest : List Line)
    (hb : isBlank l = false) (hh : isHeaderLine d (rstripNl l) = true) :
    dataCounts d (l :: rest) = plainCounts d rest := by
  rw [dataCounts, dataLines, nonBlankLines_cons_nonblank rest hb]
  dsimp only
  rw [if_pos hh]
  rfl

lemma dataCounts_cons_nonheader {l : Line} (d : Char) (rest : List Line)
    (hb : isBlank l = false) (hh : isHeaderLine d (rstripNl l) = false) :
    dataCounts d (l :: rest) =
      count_columns_in_line_fast (rstripNl l) d :: plainCounts d rest := by
  rw [dataCounts, dataLines, nonBlankLines_cons_nonblank rest hb]
  dsimp only
  rw [if_neg (by rw [hh]; simp : ¬ isHeaderLine d (rstripNl l) = true)]
  rw [List.map_cons]
  rfl

lemma pass1_ctr_eq (d : Char) (lines : List Line) :
    (pass1 d lines).2 = buildCtr (dataCounts d lines) := by
  rw [pass1, buildCtr]
  induction lines with
  | nil => rfl
  | cons l rest ih =>
    rw [pass1Aux]
    by_cases hb : isBlank (rstripNl l) = true
    · have hb' : isBlank l = true := by rw [← isBlank_rstripNl]; exact hb
      rw [if_pos hb, dataCounts_cons_blank d rest hb']
      exact ih
    · have hb' : isBlank l = false := by
        rw [← isBlank_rstripNl]
        exact blank_false_of_not hb
      rw [if_neg hb, if_pos rfl]
      by_cases hh : isHeaderLine d (rstripNl l) = true
      · rw [if_pos hh, dataCounts_cons_header d rest hb' hh,
            pass1Aux_false_ctr d rest]
      · rw [if_neg hh,
            dataCounts_cons_nonheader d rest hb' (blank_false_of_not hh),
            pass1Aux_false_ctr d rest, List.foldl_cons]

/-! # C7: the empty-input error of `analyze_csv_columns` -/

lemma ctrIncr_ne_nil (ctr : List (Nat × Nat)) (k : Nat) : ctrIncr ctr k ≠ [] := by
  rw [ctrIncr]
  split_ifs with h
  · intro hmap
    rw [List.map_eq_nil_iff] at hmap
    subst hmap
    simp at h
  · intro happ
    simp at happ

lemma foldl_ctrIncr_ne_nil :
    ∀ (cs : List Nat) (ctr : List (Nat × Nat)), ctr ≠ [] →
      List.foldl ctrIncr ctr cs ≠ [] := by
  intro cs
  induction cs with
  | nil => intro ctr h; exact h
  | cons c rest ih =>
    intro ctr h
    rw [List.foldl_cons]
    exact ih _ (ctrIncr_ne_nil ctr c)

lemma buildCtr_eq_nil_iff (cs : List Nat) : buildCtr cs = [] ↔ cs = [] := by
  constructor
  · intro h
    cases cs with
    | nil => rfl
    | cons c rest =>
      rw [buildCtr, List.foldl_cons] at h
      exact absurd h (foldl_ctrIncr_ne_nil rest _ (ctrIncr_ne_nil [] c))
  · intro h
    subst h
    rfl

lemma nonBlankLines_eq_nil_iff (lines : List Line) :
    nonBlankLines lines = [] ↔ ∀ l ∈ lines, isBlank l = true := by
  rw [nonBlankLines, List.filter_eq_nil_iff]
  constructor
  · intro h l hl
    have := h (rstripNl l) (List.mem_map_of_mem _ hl)
    simpa [isBlank_rstripNl] using this
  · intro h s hs
    rw [List.mem_map] at hs
    obtain ⟨l, hl, rfl⟩ := hs
    simp [isBlank_rstripNl, h l hl]

lemma dataLines_eq_nil_iff (d : Char) (lines : List Line) :
    dataLines d lines = [] ↔
      nonBlankLines lines = [] ∨
        ∃ h, nonBlankLines lines = [h] ∧ isHeaderLine d h = true := by
  rw [dataLines]
  cases hnb : nonBlankLines lines with
  | nil => simp
  | cons h rest =>
    dsimp only
    by_cases hh : isHeaderLine d h = true
    · rw [if_pos hh]
      simp only [List.cons_ne_nil, false_or]
      constructor
      · intro hr
        subst hr
        exact ⟨h, rfl, hh⟩
      · rintro ⟨h', heq, -⟩
        exact (List.cons_eq_cons.mp heq).2
    · rw [if_neg hh]
      simp only [List.cons_ne_nil, false_or, false_iff]
      rintro ⟨h', heq, hcon⟩
      obtain ⟨rfl, -⟩ := List.cons_eq_cons.mp heq
      exact hh hcon

lemma analyze_none_iff (d : Char) (u : Bool) (lines : List Line) :
    analyze_csv_columns d u lines = none ↔ (pass1 d lines).2 = [] := by
  rw [analyze_csv_columns]
  by_cases h : (pass1 d lines).2 = []
  · rw [if_pos h]
    simp [h]
  · rw [if_neg h]
    simp [h]

/-- C7: `analyze_csv_columns` raises its empty-input error exactly when the
field-count distribution after pass 1 is empty, which happens exactly when
every physical line is blank or the only non-blank line is the detected
header; on every other input it returns, and the returned distribution is
non-empty. -/
theorem claim7_empty_input_error (d : Char) (lines : List Line) :
    (analyze_csv_columns d true lines = none ↔ (pass1 d lines).2 = []) ∧
    (analyze_csv_columns d true lines = none ↔
      ((∀ l ∈ lines, isBlank l = true) ∨
        ∃ h, nonBlankLines lines = [h] ∧ isHeaderLine d h = true)) ∧
    (∀ a, analyze_csv_columns d true lines = some a → a.counter ≠ []) := by
  have h1 := analyze_none_iff d true lines
  have h2 : (pass1 d lines).2 = [] ↔
      ((∀ l ∈ lines, isBlank l = true) ∨
        ∃ h, nonBlankLines lines = [h] ∧ isHeaderLine d h = true) := by
    rw [pass1_ctr_eq, buildCtr_eq_nil_iff, dataCounts, List.map_eq_nil_iff,
        dataLines_eq_nil_iff, nonBlankLines_eq_nil_iff]
  refine ⟨h1, h1.trans h2, ?_⟩
  intro a ha
  by_cases hp : (pass1 d lines).2 = []
  · rw [h1.mpr hp] at ha
    exact absurd ha (by simp)
  · rw [analyze_csv_columns] at ha
    rw [if_neg hp] at ha
    obtain rfl := (Option.some.inj ha).symm
    exact hp

/-- Witness for C7: a one-line data file has a non-empty distribution. -/
theorem claim7_witness :
    (⟨2, [], [(2, 1)], []⟩ : AnalyzeOut).counter ≠ [] :=
  (claim7_empty_input_error ';' [toL "a;b\n"]).2.2 ⟨2, [], [(2, 1)], []⟩
    (by decide)

/-! # C6: the most-frequent policy of the expected-width resolver -/

lemma count_append_single (cs : List Nat) (x a : Nat) :
    (cs ++ [x]).count a = cs.count a + (if a = x then 1 else 0) := by
  rw [List.count_append]
  congr 1
  by_cases h : a = x
  · subst h; simp
  · rw [if_neg h, List.count_singleton',
        if_neg (fun hxa : x = a => h hxa.symm)]

lemma indexOf_append_single_self {cs : List Nat} {x : Nat} (h : x ∉ cs) :
    (cs ++ [x]).indexOf x = cs.length := by
  rw [List.indexOf_append_of_not_mem h]
  simp

lemma ctrIncr_keys_update {ctr : List (Nat × Nat)} {x : Nat}
    (hx : ((ctr.map Prod.fst).contains x) = true) :
    (ctrIncr ctr x).map Prod.fst = ctr.map Prod.fst := by
  rw [ctrIncr, if_pos hx, List.map_map]
  apply List.map_congr_left
  intro p _
  by_cases hpx : p.1 = x
  · simp [hpx]
  · simp [hpx]

lemma ctrIncr_keys_append {ctr : List (Nat × Nat)} {x : Nat}
    (hx : ¬ ((ctr.map Prod.fst).contains x) = true) :
    (ctrIncr ctr x).map Prod.fst = ctr.map Prod.fst ++ [x] := by
  rw [ctrIncr, if_neg hx, List.map_append]
  rfl

lemma buildCtr_step (cs : List Nat) (x : Nat) :
    buildCtr (cs ++ [x]) = ctrIncr (buildCtr cs) x := by
  rw [buildCtr, buildCtr, List.foldl_append, List.foldl_cons, List.foldl_nil]

lemma buildCtr_props (cs : List Nat) :
    (∀ p ∈ buildCtr cs, p.2 = cs.count p.1) ∧
    (∀ k : Nat, k ∈ (buildCtr cs).map Prod.fst ↔ k ∈ cs) ∧
    ((buildCtr cs).map Prod.fst).Pairwise
      (fun a b => cs.indexOf a < cs.indexOf b) := by
  induction cs using List.reverseRecOn with
  | nil =>
    refine ⟨?_, ?_, ?_⟩
    · intro p hp; simp [buildCtr] at hp
    · intro k; simp [buildCtr]
    · simp [buildCtr]
  | append_singleton cs x ih =>
    obtain ⟨ih1, ih2, ih3⟩ := ih
    rw [buildCtr_step]
    by_cases hx : x ∈ (buildCtr cs).map Prod.fst
    · have hcont : ((buildCtr cs).map Prod.fst).contains x = true := by
        rw [List.contains, List.elem_iff]
        exact hx
      have hxcs : x ∈ cs := (ih2 x).mp hx
      refine ⟨?_, ?_, ?_⟩
      · intro p hp
        rw [ctrIncr, if_pos hcont, List.mem_map] at hp
        obtain ⟨q, hq, rfl⟩ := hp
        by_cases hqx : q.1 = x
        · rw [if_pos hqx]
          dsimp only
          rw [count_append_single, if_pos hqx, ← ih1 q hq]
        · rw [if_neg hqx]
          rw [count_append_single, if_neg hqx, Nat.add_zero]
          exact ih1 q hq
      · intro k
        rw [ctrIncr_keys_update hcont, ih2, List.mem_append,
            List.mem_singleton]
        constructor
        · exact Or.inl
        · rintro (h | rfl)
          · exact h
          · exact hxcs
      · rw [ctrIncr_keys_update hcont]
        apply ih3.imp_of_mem
        intro a b ha hb hab
        have ha' : a ∈ cs := (ih2 a).mp ha
        have hb' : b ∈ cs := (ih2 b).mp hb
        rw [List.indexOf_append_of_mem ha', List.indexOf_append_of_mem hb']
        exact hab
    · have hcont : ¬ ((buildCtr cs).map Prod.fst).contains x = true := by
        rw [List.contains, List.elem_iff]
        exact hx
      have hxcs : x ∉ cs := fun hc => hx ((ih2 x).mpr hc)
      refine ⟨?_, ?_, ?_⟩
      · intro p hp
        rw [ctrIncr, if_neg hcont, List.mem_append] at hp
        rcases hp with hp | hp
        · have hpx : p.1 ≠ x := by
            intro he
            exact hx (he ▸ List.mem_map_of_mem Prod.fst hp)
          rw [count_append_single, if_neg hpx, Nat.add_zero]
          exact ih1 p hp
        · rw [List.mem_singleton.mp hp]
          dsimp only
          rw [count_append_single, if_pos rfl,
              List.count_eq_zero.mpr hxcs]
      · intro k
        rw [ctrIncr_keys_append hcont]
        simp only [List.mem_append, List.mem_singleton, ih2 k]
      · rw [ctrIncr_keys_append hcont]
        apply List.pairwise_append.mpr
        refine ⟨?_, List.pairwise_singleton _ _, ?_⟩
        · apply ih3.imp_of_mem
          intro a b ha hb hab
          rw [List.indexOf_append_of_mem ((ih2 a).mp ha),
              List.indexOf_append_of_mem ((ih2 b).mp hb)]
          exact hab
        · intro a ha b hb
          rw [List.mem_singleton.mp hb]
          have ha' : a ∈ cs := (ih2 a).mp ha
          rw [List.indexOf_append_of_mem ha', indexOf_append_single_self hxcs]
          exact List.indexOf_lt_length.mpr ha'

lemma foldl_pickMax :
    ∀ (rest : List (Nat × Nat)) (b : Nat × Nat),
      (∀ q ∈ rest,
        q.2 ≤ (rest.foldl (fun best q => if best.2 < q.2 then q else best) b).2) ∧
      b.2 ≤ (rest.foldl (fun best q => if best.2 < q.2 then q else best) b).2 ∧
      (rest.foldl (fun best q => if best.2 < q.2 then q else best) b = b ∨
        ∃ l₁ l₂,
          rest = l₁ ++
            (rest.foldl (fun best q => if best.2 < q.2 then q else best) b) :: l₂ ∧
          ∀ q ∈ b :: l₁,
            q.2 < (rest.foldl (fun best q => if best.2 < q.2 then q else best) b).2) := by
  intro rest
  induction rest with
  | nil =>
    intro b
    refine ⟨?_, Nat.le_refl _, Or.inl rfl⟩
    intro q hq
    exact absurd hq (List.not_mem_nil q)
  | cons p rest ih =>
    intro b
    rw [List.foldl_cons]
    by_cases hcmp : b.2 < p.2
    · rw [if_pos hcmp]
      obtain ⟨ih1, ih2, ih3⟩ := ih p
      refine ⟨?_, Nat.le_trans (Nat.le_of_lt hcmp) ih2, ?_⟩
      · intro q hq
        rcases List.mem_cons.mp hq with rfl | hq'
        · exact ih2
        · exact ih1 q hq'
      · right
        rcases ih3 with heq | ⟨l₁, l₂, hsplit, hlt⟩
        · refine ⟨[], rest, ?_, ?_⟩
          · rw [heq]
            rfl
          · intro q hq
            have : q = b := by simpa using hq
            rw [this, heq]
            exact hcmp
        · refine ⟨p :: l₁, l₂, ?_, ?_⟩
          · rw [List.cons_append, ← hsplit]
          · intro q hq
            rcases List.mem_cons.mp hq with rfl | hq'
            · exact Nat.lt_trans hcmp (hlt p (List.mem_cons_self p l₁))
            · exact hlt q hq'
    · rw [if_neg hcmp]
      obtain ⟨ih1, ih2, ih3⟩ := ih b
      refine ⟨?_, ih2, ?_⟩
      · intro q hq
        rcases List.mem_cons.mp hq with rfl | hq'
        · exact Nat.le_trans (Nat.le_of_not_lt hcmp) ih2
        · exact ih1 q hq'
      · rcases ih3 with heq | ⟨l₁, l₂, hsplit, hlt⟩
        · exact Or.inl heq
        · right
          refine ⟨p :: l₁, l₂, ?_, ?_⟩
          · rw [List.cons_append, ← hsplit]
          · intro q hq
            have hblt : b.2 <
                (rest.foldl (fun best q => if best.2 < q.2 then q else best) b).2 :=
              hlt b (List.mem_cons_self b l₁)
            rcases List.mem_cons.mp hq with rfl | hq'
            · exact hblt
            · rcases List.mem_cons.mp hq' with rfl | hq''
              · exact Nat.lt_of_le_of_lt (Nat.le_of_not_lt hcmp) hblt
              · exact hlt q (List.mem_cons_of_mem b hq'')

lemma mostCommon1_spec (ctr : List (Nat × Nat)) (hne : ctr ≠ []) :
    ∃ r, mostCommon1 ctr = some r ∧ r ∈ ctr ∧
      (∀ q ∈ ctr, q.2 ≤ r.2) ∧
      ∃ l₁ l₂, ctr = l₁ ++ r :: l₂ ∧ ∀ q ∈ l₁, q.2 < r.2 := by
  cases ctr with
  | nil => exact absurd rfl hne
  | cons p rest =>
    rw [mostCommon1]
    obtain ⟨h1, h2, h3⟩ := foldl_pickMax rest p
    refine ⟨_, rfl, ?_, ?_, ?_⟩
    · rcases h3 with heq | ⟨l₁, l₂, hsplit, -⟩
      · rw [heq]
        exact List.mem_cons_self p rest
      · apply List.mem_cons_of_mem
        have hmem : (rest.foldl (fun best q => if best.2 < q.2 then q else best) p) ∈
            l₁ ++ (rest.foldl (fun best q => if best.2 < q.2 then q else best) p) :: l₂ :=
          List.mem_append_right l₁ (List.mem_cons_self _ _)
        rwa [← hsplit] at hmem
    · intro q hq
      rcases List.mem_cons.mp hq with rfl | hq'
      · exact h2
      · exact h1 q hq'
    · rcases h3 with heq | ⟨l₁, l₂, hsplit, hlt⟩
      · refine ⟨[], rest, ?_, ?_⟩
        · rw [heq]
          rfl
        · intro q hq
          exact absurd hq (List.not_mem_nil q)
      · refine ⟨p :: l₁, l₂, ?_, hlt⟩
        rw [List.cons_append, ← hsplit]

/-- C6: under the most-frequent policy, `analyze_csv_columns` resolves the
expected width to a field count that occurs in the data, whose occurrence
count is maximal, and which — among counts tied for that maximum — is the one
whose first occurrence appears earliest in the file. -/
theorem claim6_most_frequent_policy (d : Char) (lines : List Line)
    (a : AnalyzeOut) (ha : analyze_csv_columns d true lines = some a) :
    a.expectedColumns ∈ dataCounts d lines ∧
    (∀ m ∈ dataCounts d lines,
      (dataCounts d lines).count m ≤
        (dataCounts d lines).count a.expectedColumns) ∧
    (∀ m ∈ dataCounts d lines,
      (dataCounts d lines).count m =
          (dataCounts d lines).count a.expectedColumns →
        (dataCounts d lines).indexOf a.expectedColumns ≤
          (dataCounts d lines).indexOf m) := by
  rw [analyze_csv_columns] at ha
  by_cases hp : (pass1 d lines).2 = []
  · rw [if_pos hp] at ha
    exact absurd ha (by simp)
  · rw [if_neg hp] at ha
    obtain rfl := (Option.some.inj ha).symm
    rw [pass1_ctr_eq] at hp
    obtain ⟨r, hmc, hrmem, hmax, l₁, l₂, hsplit, hlt⟩ :=
      mostCommon1_spec (buildCtr (dataCounts d lines)) hp
    obtain ⟨P1, P2, P3⟩ := buildCtr_props (dataCounts d lines)
    have hexp : (AnalyzeOut.expectedColumns
        ⟨if true = true then
            (match mostCommon1 (pass1 d lines).2 with
             | some q => q.1
             | none => 0)
          else maxKeys (pass1 d lines).2,
          sortNat ((find_problematic_lines d
            (if true = true then
              (match mostCommon1 (pass1 d lines).2 with
               | some q => q.1
               | none => 0)
            else maxKeys (pass1 d lines).2) lines).map Prod.fst),
          (pass1 d lines).2,
          find_problematic_lines d
            (if true = true then
              (match mostCommon1 (pass1 d lines).2 with
               | some q => q.1
               | none => 0)
            else maxKeys (pass1 d lines).2) lines⟩) = r.1 := by
      dsimp only
      rw [if_pos rfl, pass1_ctr_eq, hmc]
    rw [hexp]
    refine ⟨?_, ?_, ?_⟩
    · exact (P2 r.1).mp (List.mem_map_of_mem Prod.fst hrmem)
    · intro m hm
      obtain ⟨q, hq, hqm⟩ := List.mem_map.mp ((P2 m).mpr hm)
      have h1 : q.2 = (dataCounts d lines).count q.1 := P1 q hq
      have h2 : r.2 = (dataCounts d lines).count r.1 := P1 r hrmem
      have h3 : q.2 ≤ r.2 := hmax q hq
      rw [← hqm, ← h1, ← h2]
      exact h3
    · intro m hm hcnt
      obtain ⟨q, hq, hqm⟩ := List.mem_map.mp ((P2 m).mpr hm)
      have h1 : q.2 = (dataCounts d lines).count q.1 := P1 q hq
      have h2 : r.2 = (dataCounts d lines).count r.1 := P1 r hrmem
      have hq2r2 : q.2 = r.2 := by rw [h1, hqm, hcnt, ← h2]
      rw [hsplit] at hq
      rcases List.mem_append.mp hq with hql | hqr
      · exact absurd hq2r2 (Nat.ne_of_lt (hlt q hql))
      · rcases List.mem_cons.mp hqr with rfl | hql2
        · rw [hqm]
        · have hP3' := P3
          rw [hsplit, List.map_append, List.map_cons] at hP3'
          have hrel := (List.pairwise_cons.mp
            (List.pairwise_append.mp hP3').2.1).1
          have := hrel q.1 (List.mem_map_of_mem Prod.fst hql2)
          rw [← hqm]
          exact Nat.le_of_lt this

/-- Witness for C6: on counts `[3, 2]` the frequencies tie and the resolver
picks 3, the count seen first — its first occurrence is no later than 2's. -/
theorem claim6_witness :
    (dataCounts ';' [toL "a;b;c\n", toL "d;e\n"]).indexOf 3 ≤
      (dataCounts ';' [toL "a;b;c\n", toL "d;e\n"]).indexOf 2 := by
  have h := claim6_most_frequent_policy ';' [toL "a;b;c\n", toL "d;e\n"]
    ⟨3, [2], [(3, 1), (2, 1)], [(2, 2)]⟩ (by decide)
  exact h.2.2 2 (by decide) (by decide)

/-! # C3: no anomalies means no merges and full record count -/

lemma insNat_ne_nil (n : Nat) (l : List Nat) : insNat n l ≠ [] := by
  cases l with
  | nil => simp [insNat]
  | cons m rest =>
    rw [insNat]
    split_ifs <;> simp

lemma sortNat_eq_nil_iff (l : List Nat) : sortNat l = [] ↔ l = [] := by
  constructor
  · intro h
    cases l with
    | nil => rfl
    | cons a rest =>
      rw [sortNat, List.foldr_cons] at h
      exact absurd h (insNat_ne_nil a _)
  · intro h
    subst h
    rfl

lemma findProbAux_false_nil_counts (d : Char) (E : Nat) :
    ∀ (ls : List Line) (i : Nat),
      findProbAux d E false i ls = [] →
      ∀ l ∈ ls, isBlank l = false →
        count_columns_in_line_fast (rstripNl l) d = E := by
  intro ls
  induction ls with
  | nil =>
    intro i h l hl hnb
    exact absurd hl (List.not_mem_nil l)
  | cons l0 rest ih =>
    intro i h l hl hnb
    rw [findProbAux] at h
    by_cases hb : isBlank (rstripNl l0) = true
    · rw [if_pos hb] at h
      rcases List.mem_cons.mp hl with rfl | hl'
      · rw [isBlank_rstripNl, hnb] at hb
        simp at hb
      · exact ih (i + 1) h l hl' hnb
    · rw [if_neg hb,
          if_neg (by rintro ⟨hx, -⟩; exact absurd hx (by simp) :
            ¬ ((false : Bool) = true ∧ isHeaderLine d (rstripNl l0) = true)),
          List.append_eq_nil] at h
      rcases List.mem_cons.mp hl with rfl | hl'
      · by_cases hc : count_columns_in_line_fast (rstripNl l) d ≠ E
        · rw [if_pos hc] at h
          exact absurd h.1 (by simp)
        · exact not_not.mp hc
      · exact ih (i + 1) h.2 l hl' hnb

lemma findProbAux_true_nil_ge (d : Char) (E : Nat) :
    ∀ (ls : List Line) (i : Nat),
      findProbAux d E true i ls = [] →
      ∀ l ∈ ls, isBlank l = false →
        E ≤ count_columns_in_line_fast (rstripNl l) d := by
  intro ls
  induction ls with
  | nil =>
    intro i h l hl hnb
    exact absurd hl (List.not_mem_nil l)
  | cons l0 rest ih =>
    intro i h l hl hnb
    rw [findProbAux] at h
    by_cases hb : isBlank (rstripNl l0) = true
    · rw [if_pos hb] at h
      rcases List.mem_cons.mp hl with rfl | hl'
      · rw [isBlank_rstripNl, hnb] at hb
        simp at hb
      · exact ih (i + 1) h l hl' hnb
    · rw [if_neg hb] at h
      by_cases hh : isHeaderLine d (rstripNl l0) = true
      · rw [if_pos ⟨rfl, hh⟩, List.append_eq_nil] at h
        rcases List.mem_cons.mp hl with rfl | hl'
        · by_cases hcc : count_columns_in_line_fast (rstripNl l) d ≠ E ∧
              count_columns_in_line_fast (rstripNl l) d ≠ E + 1
          · rw [if_pos hcc] at h
            exact absurd h.1 (by simp)
          · rw [not_and_or, not_not, not_not] at hcc
            rcases hcc with hcc | hcc <;> omega
        · rw [findProbAux_false_nil_counts d E rest (i + 1) h.2 l hl' hnb]
      · rw [if_neg (fun hx => hh hx.2), List.append_eq_nil] at h
        rcases List.mem_cons.mp hl with rfl | hl'
        · by_cases hc : count_columns_in_line_fast (rstripNl l) d ≠ E
          · rw [if_pos hc] at h
            exact absurd h.1 (by simp)
          · rw [not_not.mp hc]
        · rw [findProbAux_false_nil_counts d E rest (i + 1) h.2 l hl' hnb]

lemma findProbAux_false_nil_plainCounts (d : Char) (E : Nat) :
    ∀ (ls : List Line) (i : Nat),
      findProbAux d E false i ls = [] →
      ∀ c ∈ plainCounts d ls, c = E := by
  intro ls
  induction ls with
  | nil =>
    intro i h c hc
    rw [plainCounts, nonBlankLines] at hc
    simp at hc
  | cons l0 rest ih =>
    intro i h c hc
    rw [findProbAux] at h
    by_cases hb : isBlank (rstripNl l0) = true
    · have hb' : isBlank l0 = true := by rw [← isBlank_rstripNl]; exact hb
      rw [if_pos hb] at h
      rw [plainCounts_cons_blank d rest hb'] at hc
      exact ih (i + 1) h c hc
    · have hb' : isBlank l0 = false := by
        rw [← isBlank_rstripNl]
        exact blank_false_of_not hb
      rw [if_neg hb,
          if_neg (by rintro ⟨hx, -⟩; exact absurd hx (by simp) :
            ¬ ((false : Bool) = true ∧ isHeaderLine d (rstripNl l0) = true)),
          List.append_eq_nil] at h
      rw [plainCounts_cons_nonblank d rest hb'] at hc
      rcases List.mem_cons.mp hc with rfl | hc'
      · by_cases hcne : count_columns_in_line_fast (rstripNl l0) d ≠ E
        · rw [if_pos hcne] at h
          exact absurd h.1 (by simp)
        · exact not_not.mp hcne
      · exact ih (i + 1) h.2 c hc'

lemma findProbAux_true_nil_dataCounts (d : Char) (E : Nat) :
    ∀ (ls : List Line) (i : Nat),
      findProbAux d E true i ls = [] →
      ∀ c ∈ dataCounts d ls, c = E := by
  intro ls
  induction ls with
  | nil =>
    intro i h c hc
    rw [dataCounts, dataLines, nonBlankLines] at hc
    simp at hc
  | cons l0 rest ih =>
    intro i h c hc
    rw [findProbAux] at h
    by_cases hb : isBlank (rstripNl l0) = true
    · have hb' : isBlank l0 = true := by rw [← isBlank_rstripNl]; exact hb
      rw [if_pos hb] at h
      rw [dataCounts_cons_blank d rest hb'] at hc
      exact ih (i + 1) h c hc
    · have hb' : isBlank l0 = false := by
        rw [← isBlank_rstripNl]
        exact blank_false_of_not hb
      rw [if_neg hb] at h
      by_cases hh : isHeaderLine d (rstripNl l0) = true
      · rw [if_pos ⟨rfl, hh⟩, List.append_eq_nil] at h
        rw [dataCounts_cons_header d rest hb' hh] at hc
        exact findProbAux_false_nil_plainCounts d E rest (i + 1) h.2 c hc
      · rw [if_neg (fun hx => hh hx.2), List.append_eq_nil] at h
        rw [dataCounts_cons_nonheader d rest hb' (blank_false_of_not hh)] at hc
        rcases List.mem_cons.mp hc with rfl | hc'
        · by_cases hcne : count_columns_in_line_fast (rstripNl l0) d ≠ E
          · rw [if_pos hcne] at h
            exact absurd h.1 (by simp)
          · exact not_not.mp hcne
        · exact findProbAux_false_nil_plainCounts d E rest (i + 1) h.2 c hc'

lemma foldl_max_const (E : Nat) :
    ∀ (rest : List (Nat × Nat)), (∀ q ∈ rest, q.1 = E) →
      rest.foldl (fun m q => max m q.1) E = E := by
  intro rest
  induction rest with
  | nil => intro _; rfl
  | cons q rest ih =>
    intro h
    rw [List.foldl_cons, h q (List.mem_cons_self q rest), Nat.max_self]
    exact ih (fun p hp => h p (List.mem_cons_of_mem q hp))

lemma maxKeys_const {ctr : List (Nat × Nat)} {E : Nat} (hne : ctr ≠ [])
    (h : ∀ p ∈ ctr, p.1 = E) : maxKeys ctr = E := by
  cases ctr with
  | nil => exact absurd rfl hne
  | cons p rest =>
    rw [maxKeys, h p (List.mem_cons_self p rest)]
    exact foldl_max_const E rest (fun q hq => h q (List.mem_cons_of_mem p hq))

lemma rcBodyC3 (d : Char) (E : Nat) (X : RCState) (l : Line)
    (hline : isBlank l = false → E ≤ count_columns_in_line_fast (rstripNl l) d)
    (hbuf : X.buffer = [] ∨
      (isBlank X.buffer = false ∧ X.olc = 1 ∧
        E ≤ count_columns_in_line_fast (rstripNl X.buffer) d)) :
    ((rcBody d E X l).buffer = [] ∨
      (isBlank (rcBody d E X l).buffer = false ∧ (rcBody d E X l).olc = 1 ∧
        E ≤ count_columns_in_line_fast (rstripNl (rcBody d E X l).buffer) d)) ∧
    (rcBody d E X l).corrected = X.corrected ∧
    (rcBody d E X l).written + bufFlag (rcBody d E X l) =
      X.written + bufFlag X + (if isBlank l then 0 else 1) := by
  rw [rcBody]
  by_cases h1 : isBlank (rstripNl l) = true
  · have hbl : isBlank l = true := by rw [← isBlank_rstripNl]; exact h1
    rw [if_pos h1, if_pos hbl]
    exact ⟨hbuf, rfl, rfl⟩
  · have hbl : isBlank l = false := by
      rw [← isBlank_rstripNl]
      exact blank_false_of_not h1
    have hlE := hline hbl
    have hlnn : l ≠ [] := ne_nil_of_not_blank hbl
    rw [if_neg h1, if_neg (by rw [hbl]; simp : ¬ isBlank l = true)]
    by_cases h2 : X.buffer = []
    · rw [if_neg (not_not_intro h2)]
      refine ⟨Or.inr ⟨hbl, rfl, ?_⟩, rfl, ?_⟩
      · exact hlE
      · simp only [bufFlag]
        rw [if_neg hlnn, if_pos h2]
    · rw [if_pos h2]
      rcases hbuf with hbe | ⟨hbnb, holc, hbE⟩
      · exact absurd hbe h2
      · have h3 : ¬ isBlank (rstripNl X.buffer) = true := by
          rw [isBlank_rstripNl, hbnb]
          simp
        rw [if_pos h3]
        have h4 : count_columns_in_line_fast (rstripNl X.buffer) d = E ∨
            E < count_columns_in_line_fast (rstripNl X.buffer) d := by
          omega
        rw [if_pos h4]
        refine ⟨Or.inr ⟨hbl, rfl, hlE⟩, ?_, ?_⟩
        · dsimp only
          rw [holc]
          simp
        · simp only [bufFlag]
          rw [if_neg hlnn, if_neg h2]

lemma rcStepC3 (d : Char) (E : Nat) (s : RCState) (l : Line)
    (hline : isBlank l = false → E ≤ count_columns_in_line_fast (rstripNl l) d)
    (hg : GoodC3 d E s) :
    GoodC3 d E (rcStep d E s l) ∧
    measureRC (rcStep d E s l) = measureRC s + (if isBlank l then 0 else 1) := by
  obtain ⟨hc0, hbuf, hff⟩ := hg
  rw [rcStep]
  by_cases h1 : s.firstFlag = true ∧ isHeaderLine d (rstripNl l) = true
  · rw [if_pos h1]
    obtain ⟨hhl, hfd, hbe⟩ := hff h1.1
    have hnb : isBlank l = false := by
      rw [← isBlank_rstripNl]
      exact isHeaderLine_nonblank h1.2
    refine ⟨⟨hc0, Or.inl hbe, fun hf => absurd hf (by simp)⟩, ?_⟩
    rw [hnb]
    simp only [measureRC, bufFlag, pendFlag]
    dsimp only
    rw [hhl, hfd, hbe]
    simp
  · rw [if_neg h1]
    obtain ⟨kb, ko, kc, kr, kff, khl⟩ :=
      rcPend_keeps d { s with firstFlag := false } l
    have hpm := rcPend_measure d { s with firstFlag := false } l
    obtain ⟨bh, bf, bo, bff⟩ :=
      rcBody_keeps d E (rcPend d { s with firstFlag := false } l) l
    have hbufX : (rcPend d { s with firstFlag := false } l).buffer = s.buffer := kb
    have holcX : (rcPend d { s with firstFlag := false } l).olc = s.olc := ko
    have hcorX : (rcPend d { s with firstFlag := false } l).corrected =
        s.corrected := kc
    have hbX : (rcPend d { s with firstFlag := false } l).buffer = [] ∨
        (isBlank (rcPend d { s with firstFlag := false } l).buffer = false ∧
          (rcPend d { s with firstFlag := false } l).olc = 1 ∧
          E ≤ count_columns_in_line_fast
            (rstripNl (rcPend d { s with firstFlag := false } l).buffer) d) := by
      rw [hbufX, holcX]
      exact hbuf
    obtain ⟨hb', hcor', hmw⟩ :=
      rcBodyC3 d E (rcPend d { s with firstFlag := false } l) l hline hbX
    refine ⟨⟨?_, hb', ?_⟩, ?_⟩
    · rw [hcor', hcorX]
      exact hc0
    · intro hf
      rw [bff, kff] at hf
      exact absurd hf (by simp)
    · have hpend : pendFlag (rcBody d E
          (rcPend d { s with firstFlag := false } l) l) =
        pendFlag (rcPend d { s with firstFlag := false } l) :=
      pendFlag_congr bh bf
      have hbufX2 : bufFlag (rcPend d { s with firstFlag := false } l) =
          bufFlag s := bufFlag_congr hbufX
      have hpends1 : pendFlag { s with firstFlag := false } = pendFlag s :=
        pendFlag_congr rfl rfl
      have hw1 : ({ s with firstFlag := false } : RCState).written =
          s.written := rfl
      rw [measureRC, measureRC, hpend]
      omega

lemma rcFoldC3 (d : Char) (E : Nat) :
    ∀ (ls : List Line) (s : RCState),
      (∀ l ∈ ls, isBlank l = false →
        E ≤ count_columns_in_line_fast (rstripNl l) d) →
      GoodC3 d E s →
      GoodC3 d E (ls.foldl (rcStep d E) s) ∧
      measureRC (ls.foldl (rcStep d E) s) = measureRC s + countNonBlank ls := by
  intro ls
  induction ls with
  | nil =>
    intro s hall hg
    refine ⟨hg, ?_⟩
    simp [countNonBlank]
  | cons l rest ih =>
    intro s hall hg
    rw [List.foldl_cons, countNonBlank_cons]
    obtain ⟨hg', hm⟩ := rcStepC3 d E s l
      (hall l (List.mem_cons_self l rest)) hg
    obtain ⟨hg'', hm'⟩ := ih (rcStep d E s l)
      (fun x hx => hall x (List.mem_cons_of_mem l hx)) hg'
    refine ⟨hg'', ?_⟩
    rw [hm', hm]
    omega

lemma rcStep_firstFlag (d : Char) (E : Nat) (s : RCState) (l : Line) :
    (rcStep d E s l).firstFlag = false := by
  rw [rcStep]
  by_cases h1 : s.firstFlag = true ∧ isHeaderLine d (rstripNl l) = true
  · rw [if_pos h1]
  · rw [if_neg h1]
    obtain ⟨-, -, -, bff⟩ :=
      rcBody_keeps d E (rcPend d { s with firstFlag := false } l) l
    obtain ⟨-, -, -, -, kff, -⟩ := rcPend_keeps d { s with firstFlag := false } l
    rw [bff, kff]

lemma pendFlag_eq_one {s : RCState} (h : pendFlag s = 1) :
    s.headerLine ≠ none ∧ s.firstData = none := by
  rw [pendFlag] at h
  split_ifs at h with hc
  exact hc

lemma rcStep_pend_one (d : Char) (E : Nat) (s : RCState) (l : Line)
    (h : pendFlag (rcStep d E s l) = 1) :
    (pendFlag s = 1 ∧ isBlank l = true) ∨
      (s.firstFlag = true ∧ isHeaderLine d (rstripNl l) = true) := by
  rw [rcStep] at h
  by_cases h1 : s.firstFlag = true ∧ isHeaderLine d (rstripNl l) = true
  · exact Or.inr h1
  · rw [if_neg h1] at h
    obtain ⟨bh, bf, -, -⟩ :=
      rcBody_keeps d E (rcPend d { s with firstFlag := false } l) l
    rw [pendFlag_congr bh bf] at h
    left
    by_cases hbl : isBlank (rstripNl l) = true
    · have hbl' : isBlank l = true := by rw [← isBlank_rstripNl]; exact hbl
      rcases rcPend_cases d { s with firstFlag := false } l with
        heq | ⟨hd, -, -, hfb, -⟩
      · rw [heq] at h
        rw [pendFlag_congr rfl rfl] at h
        exact ⟨h, hbl'⟩
      · rw [hbl] at hfb
        simp at hfb
    · exfalso
      rcases rcPend_cases d { s with firstFlag := false } l with
        heq | ⟨hd, -, -, -, heq⟩
      · rw [heq] at h
        have hps1 : pendFlag ({ s with firstFlag := false } : RCState) =
            pendFlag s := pendFlag_congr rfl rfl
        rw [hps1] at h
        obtain ⟨hhl, hfd⟩ := pendFlag_eq_one h
        obtain ⟨hval, hsome⟩ := Option.ne_none_iff_exists.mp hhl
        rw [rcPend,
            show ({ s with firstFlag := false } : RCState).headerLine =
              some hval from hsome.symm,
            show ({ s with firstFlag := false } : RCState).firstData =
              none from hfd] at heq
        dsimp only at heq
        rw [if_pos hbl] at heq
        have hcontra := congrArg RCState.firstData heq
        simp [hfd] at hcontra
      · rw [heq, pendFlag] at h
        simp at h

lemma rcFold_pend_one (d : Char) (E : Nat) :
    ∀ (ls : List Line) (s : RCState),
      pendFlag (ls.foldl (rcStep d E) s) = 1 →
      (pendFlag s = 1 ∧ ∀ l ∈ ls, isBlank l = true) ∨
        (s.firstFlag = true ∧ ∃ l1 rest, ls = l1 :: rest ∧
          isHeaderLine d (rstripNl l1) = true ∧
          ∀ l ∈ rest, isBlank l = true) := by
  intro ls
  induction ls with
  | nil =>
    intro s h
    exact Or.inl ⟨h, fun l hl => absurd hl (List.not_mem_nil l)⟩
  | cons l rest ih =>
    intro s h
    rw [List.foldl_cons] at h
    rcases ih (rcStep d E s l) h with ⟨hp, hrest⟩ | ⟨hf, -⟩
    · rcases rcStep_pend_one d E s l hp with ⟨hps, hbl⟩ | ⟨hf1, hh1⟩
      · left
        refine ⟨hps, ?_⟩
        intro x hx
        rcases List.mem_cons.mp hx with rfl | hx'
        · exact hbl
        · exact hrest x hx'
      · exact Or.inr ⟨hf1, l, rest, rfl, hh1, hrest⟩
    · rw [rcStep_firstFlag] at hf
      simp at hf

lemma read_and_correct_clean (d : Char) (E : Nat) (lines : List Line)
    (hall : ∀ l ∈ lines, isBlank l = false →
      E ≤ count_columns_in_line_fast (rstripNl l) d)
    (hpend : pendFlag (lines.foldl (rcStep d E) rcInit) = 0) :
    (read_and_correct d E lines).corrected = 0 ∧
    (read_and_correct d E lines).written = countNonBlank lines := by
  have hginit : GoodC3 d E rcInit := ⟨rfl, Or.inl rfl, fun _ => ⟨rfl, rfl, rfl⟩⟩
  obtain ⟨⟨hc0, hbuf, -⟩, hmeas⟩ := rcFoldC3 d E lines rcInit hall hginit
  rw [show measureRC rcInit = 0 from rfl, Nat.zero_add] at hmeas
  rw [read_and_correct, rcFinal]
  rcases hbuf with hbe | ⟨hbnb, holc, -⟩
  · rw [if_neg (by rw [hbe]; simp [isBlank] :
        ¬ ¬ isBlank (lines.foldl (rcStep d E) rcInit).buffer = true)]
    refine ⟨hc0, ?_⟩
    rw [measureRC] at hmeas
    have hbf : bufFlag (lines.foldl (rcStep d E) rcInit) = 0 := by
      rw [bufFlag, if_pos hbe]
    omega
  · rw [if_pos (by rw [hbnb]; simp :
        ¬ isBlank (lines.foldl (rcStep d E) rcInit).buffer = true)]
    dsimp only
    have hbf : bufFlag (lines.foldl (rcStep d E) rcInit) = 1 := by
      rw [bufFlag, if_neg (ne_nil_of_not_blank hbnb)]
    constructor
    · rw [holc, hc0]
      simp
    · rw [measureRC] at hmeas
      omega

/-- C3: when the anomaly locator of `analyze_csv_columns` reports no
anomalous lines, the repair pass of `correct_csv` performs zero merges
(`lines_corrected = 0`) and writes exactly one record per non-blank physical
input line. -/
theorem claim3_no_anomalies_no_merges (d : Char) (lines : List Line)
    (a : AnalyzeOut) (ha : analyze_csv_columns d true lines = some a)
    (hprob : a.problematicList = []) :
    ∀ out w c, correct_csv d lines = some (out, w, c) →
      c = 0 ∧ w = countNonBlank lines := by
  intro out w c hcc
  have hp : (pass1 d lines).2 ≠ [] := by
    intro h
    rw [(analyze_none_iff d true lines).mpr h] at ha
    simp at ha
  have ha2 := ha
  rw [analyze_csv_columns, if_neg hp] at ha2
  have heq := Option.some.inj ha2
  have h1 : a.problematicList =
      sortNat ((find_problematic_lines d a.expectedColumns lines).map
        Prod.fst) := by
    rw [← heq]
  have hctr : a.counter = (pass1 d lines).2 := by
    rw [← heq]
  have hfind : find_problematic_lines d a.expectedColumns lines = [] := by
    rw [h1] at hprob
    exact List.map_eq_nil_iff.mp ((sortNat_eq_nil_iff _).mp hprob)
  have hfind' := hfind
  rw [find_problematic_lines] at hfind'
  have hall := findProbAux_true_nil_ge d a.expectedColumns lines 1 hfind'
  have hdataC := findProbAux_true_nil_dataCounts d a.expectedColumns lines 1
    hfind'
  have hpB : buildCtr (dataCounts d lines) ≠ [] := by
    rw [← pass1_ctr_eq]
    exact hp
  obtain ⟨-, P2, -⟩ := buildCtr_props (dataCounts d lines)
  have hmax : maxKeys a.counter = a.expectedColumns := by
    rw [hctr, pass1_ctr_eq]
    apply maxKeys_const hpB
    intro p hmem
    exact hdataC p.1 ((P2 p.1).mp (List.mem_map_of_mem Prod.fst hmem))
  have hpend : pendFlag (lines.foldl (rcStep d a.expectedColumns) rcInit) = 0 := by
    by_cases hcond :
        pendFlag (lines.foldl (rcStep d a.expectedColumns) rcInit) = 1
    · exfalso
      rcases rcFold_pend_one d a.expectedColumns lines rcInit hcond with
        ⟨hpi, -⟩ | ⟨-, l1, rest, hsplit, hh1, hrest⟩
      · rw [show pendFlag rcInit = 0 from rfl] at hpi
        simp at hpi
      · apply hp
        have hnb1 : isBlank l1 = false := by
          rw [← isBlank_rstripNl]
          exact isHeaderLine_nonblank hh1
        have hdc : dataCounts d lines = [] := by
          rw [hsplit, dataCounts, dataLines,
              nonBlankLines_cons_nonblank rest hnb1,
              (nonBlankLines_eq_nil_iff rest).mpr hrest]
          dsimp only
          rw [if_pos hh1]
          rfl
        rw [pass1_ctr_eq, hdc]
        rfl
    · rw [pendFlag] at hcond ⊢
      split_ifs at hcond ⊢ with hcnd
      · exact absurd rfl hcond
      · rfl
  rw [correct_csv, ha] at hcc
  dsimp only at hcc
  rw [hmax, Nat.max_self] at hcc
  have h3 := Option.some.inj hcc
  rw [Prod.ext_iff] at h3
  obtain ⟨-, h3⟩ := h3
  rw [Prod.ext_iff] at h3
  obtain ⟨hw, hc⟩ := h3
  dsimp only at hw hc
  obtain ⟨hcor0, hwcnt⟩ := read_and_correct_clean d a.expectedColumns lines
    hall hpend
  constructor
  · rw [← hc]
    exact hcor0
  · rw [← hw]
    exact hwcnt

/-- Witness for C3: a clean two-line file — no anomalies, zero merges, two
records from two non-blank lines. -/
theorem claim3_witness :
    (0 : Nat) = 0 ∧ (2 : Nat) = countNonBlank [toL "a;b\n", toL "c;d\n"] :=
  claim3_no_anomalies_no_merges ';' [toL "a;b\n", toL "c;d\n"]
    ⟨2, [], [(2, 2)], []⟩ (by decide) rfl
    [toL "a;b\n", toL "c;d\n"] 2 0 (by decide)

end CresVal
